import Mathlib

/-!
# The allocation tracing engine of the criterium JVMTI agent

A shallow embedding of `agent-cpp/agent.cpp`: the tracing state machine, the
record store (`allocs` and `allocs_by_tag`), the tag counter, the stack frame
resolution (`calling_frame`, `frame_detail`) and the handlers
`SampledObjectAlloc`, `ObjectFree`, `allocation_tracing_report` and
`Agent_command`.

Conventions of the embedding.

* The global variables of the agent are the fields of `State`; every function
  that touches them takes the state and returns the new one.
* The JVM is a record `Host` of the answers it gives to the queries the agent
  makes; a failing JVMTI call (an error code other than `JVMTI_ERROR_NONE`)
  is `none`.  What the agent writes into the JVM (the mirrored state field,
  the two event notification modes, the heap sampling interval, object tags)
  is kept in `State` as well.
* `jlong` values are `Int`; the one place where the width matters, the
  increment of `next_object_tag`, wraps explicitly with `jlong_wrap`.
* A `char const*` is the list of characters before the terminating NUL.
* An `alloc_rec*` held by `allocs_by_tag` is the position of the record in
  `allocs`: records are only ever appended to `allocs` or removed all at once,
  so the position identifies the record for as long as it lives.
* Events are handled one at a time: a handler runs to completion before the
  next one starts.
* Where the source builds a `std::string` from a null pointer the constructor
  throws (`std::logic_error`) and the handler is left at that point: what it
  did before stays done, nothing after it happens.
-/

namespace Criterium

set_option linter.dupNamespace false

/-! ## Machine integers and C strings -/

/-- The 64-bit two's-complement value an overflowing `jlong` computation
leaves behind. -/
def jlong_wrap (x : Int) : Int :=
  (x + 9223372036854775808) % 18446744073709551616 - 9223372036854775808

/-- The largest `jlong`. -/
def jlong_max : Int := 9223372036854775807

/-- The C library `strcmp`: zero when the two strings are equal, otherwise the
sign of the first difference (the end of a string counts as the smallest
character). -/
def strcmp : List Char → List Char → Int
  | [], [] => 0
  | [], _ :: _ => -1
  | _ :: _, [] => 1
  | a :: as, b :: bs =>
    if a = b then strcmp as bs else if a.toNat < b.toNat then -1 else 1

/-- The C library `strncmp`: as `strcmp`, looking at no more than `n`
characters. -/
def strncmp : List Char → List Char → Nat → Int
  | _, _, 0 => 0
  | [], [], _ + 1 => 0
  | [], _ :: _, _ + 1 => -1
  | _ :: _, [], _ + 1 => 1
  | a :: as, b :: bs, n + 1 =>
    if a = b then strncmp as bs n else if a.toNat < b.toNat then -1 else 1

/-! ## Handles and host data -/

/-- A JNI class reference. -/
abbrev jclass := Nat

/-- A JNI object reference. -/
abbrev jobject := Nat

/-- A JNI thread reference. -/
abbrev jthread := Nat

/-- A JVMTI method identifier. -/
abbrev jmethodID := Nat

/-- One frame of a captured stack (`jvmtiFrameInfo`). -/
structure jvmtiFrameInfo where
  method : jmethodID
  location : Int
deriving DecidableEq, Repr

/-- One entry of a method's line-number table (`jvmtiLineNumberEntry`). -/
structure jvmtiLineNumberEntry where
  start_location : Int
  line_number : Int
deriving DecidableEq, Repr

/-- The answers of the JVM to the queries of the agent.  `none` is a JVMTI
error code other than `JVMTI_ERROR_NONE`. -/
structure Host where
  GetClassSignature : jclass → Option String
  GetStackTrace : jthread → Option (List jvmtiFrameInfo)
  GetMethodDeclaringClass : jmethodID → Option jclass
  GetMethodName : jmethodID → Option String
  GetLineNumberTable : jmethodID → Option (List jvmtiLineNumberEntry)
  GetSourceFileName : jclass → Option String
  Thread_getId : jthread → Int
  GetObjectsWithTags : List Int → List jobject
  /-- What the first entry of the frame array of `SampledObjectAlloc` holds
  when `GetStackTrace` wrote no frame: the array is not initialised, so this
  is whatever the memory held. -/
  stack_buffer : jvmtiFrameInfo

/-! ## Constants of the agent -/

/-- `enum States`, value `passive`. -/
def passive : Int := 0

/-- `enum States`, value `allocation_tracing_starting`. -/
def allocation_tracing_starting : Int := 10

/-- `enum States`, value `allocation_tracing_active`. -/
def allocation_tracing_active : Int := 11

/-- `enum States`, value `allocation_tracing_stopping`. -/
def allocation_tracing_stopping : Int := 15

/-- `enum States`, value `allocation_tracing_flushing`. -/
def allocation_tracing_flushing : Int := 16

/-- `enum States`, value `allocation_tracing_flushed`. -/
def allocation_tracing_flushed : Int := 17

/-- `enum Commands`, value `ping`. -/
def ping : Int := 0

/-- `enum Commands`, value `sync_state`. -/
def sync_state : Int := 1

/-- `enum Commands`, value `start_allocation_tracing`. -/
def start_allocation_tracing : Int := 10

/-- `enum Commands`, value `stop_allocation_tracing`. -/
def stop_allocation_tracing : Int := 11

/-- `enum Commands`, value `report_allocation_tracing`. -/
def report_allocation_tracing : Int := 12

/-- The type name of the start marker. -/
def allocation_start_marker : String :=
  "Lcriterium/agent/Agent$AllocationStartMarker;"

/-- The type name of the stop marker. -/
def allocation_finish_marker : String :=
  "Lcriterium/agent/Agent$AllocationFinishMarker;"

/-- The placeholder recorded when the host has no source file name. -/
def no_file_name : String := "NO_SOURCC"

/-- The bound on the depth of a captured stack. -/
def MAX_FRAMES : Nat := 1024

/-! ## Allocation records -/

/-- The record of one sampled allocation (`struct alloc_rec`). -/
structure alloc_rec where
  obj_class : String
  obj_size : Int
  call_class : String
  call_method : String
  call_file : String
  call_line : Int
  alloc_class : String
  alloc_method : String
  alloc_file : String
  alloc_line : Int
  thread_id : Int
  freed : Int
  tag : Int
  disable_marker : Bool
deriving DecidableEq, Repr

/-- The constructor of `alloc_rec`.  A null file name becomes `no_file_name`;
`freed` and `disable_marker` start false.  The class and method names are
given to `std::string` as they are: with a null one among them the
construction throws and there is no record (`none`). -/
def alloc_rec.alloc_rec (obj_class : String) (obj_size : Int)
    (call_class call_method call_file : Option String) (call_line : Int)
    (alloc_class alloc_method alloc_file : Option String) (alloc_line : Int)
    (thread_id tag : Int) : Option alloc_rec :=
  match call_class, call_method, alloc_class, alloc_method with
  | some call_class, some call_method, some alloc_class, some alloc_method =>
    some
      { obj_class := obj_class
        obj_size := obj_size
        call_class := call_class
        call_method := call_method
        call_file := match call_file with
          | none => no_file_name
          | some f => f
        call_line := call_line
        alloc_class := alloc_class
        alloc_method := alloc_method
        alloc_file := match alloc_file with
          | none => no_file_name
          | some f => f
        alloc_line := alloc_line
        thread_id := thread_id
        tag := tag
        freed := 0
        disable_marker := false }
  | _, _, _, _ => none

/-- The arguments of the `Allocation` constructor, in the order of
`agent_allocation_class_args`:
`(String, long, String, String, String, long, String, String, String, long, long, long)`. -/
abbrev Allocation :=
  String × Int × String × String × String × Int × String × String × String × Int × Int × Int

/-- What the agent passes to `Agent.data1`. -/
inductive Data1 where
  | Alive
  | Allocation (a : Allocation)
deriving Repr

/-- A call into the JVM whose arguments are kept for inspection. -/
inductive HostCall where
  | SetTag (object : jobject) (tag : Int)
  | GetObjectsWithTags (tags : List Int)
deriving DecidableEq, Repr

/-! ## The engine state -/

/-- The global variables of the agent together with what it has written into
the JVM. -/
structure State where
  /-- The tracing state (`agent_state`). -/
  agent_state : Int
  /-- The static field `Agent.state` of the JVM, written by `set_state(env, _)`. -/
  agent_state_field : Int
  /-- The tag counter (`next_object_tag`). -/
  next_object_tag : Int
  /-- The record sequence, in insertion order. -/
  allocs : List alloc_rec
  /-- The tag index: tag and position of the record in `allocs`. -/
  allocs_by_tag : List (Int × Nat)
  /-- Notification mode of `JVMTI_EVENT_SAMPLED_OBJECT_ALLOC`. -/
  sampled_object_alloc_enabled : Bool
  /-- Notification mode of `JVMTI_EVENT_OBJECT_FREE`. -/
  object_free_enabled : Bool
  /-- The value last given to `SetHeapSamplingInterval`. -/
  heap_sampling_interval : Int
  /-- The `SetTag` and `GetObjectsWithTags` calls made so far, oldest first. -/
  host_calls : List HostCall
deriving DecidableEq, Repr

/-- `std::map::at`: the value stored under a key, `none` standing for
`std::out_of_range`. -/
def map_at : List (Int × Nat) → Int → Option Nat
  | [], _ => none
  | (k, v) :: m, key => if key = k then some v else map_at m key

/-- `std::map::emplace`: adds the pair unless the key is already present. -/
def map_emplace (m : List (Int × Nat)) (key : Int) (v : Nat) : List (Int × Nat) :=
  match map_at m key with
  | some _ => m
  | none => (key, v) :: m

/-- `set_state(jlong)`: writes the tracing state only. -/
def set_state (state : Int) (s : State) : State :=
  { s with agent_state := state }

/-- `set_state(JNIEnv*, jlong)`: writes the field `Agent.state`, then the
tracing state. -/
def set_state_env (state : Int) (s : State) : State :=
  set_state state { s with agent_state_field := state }

/-- `next_tag`: returns the counter and increments it. -/
def next_tag (s : State) : Int × State :=
  (s.next_object_tag, { s with next_object_tag := jlong_wrap (s.next_object_tag + 1) })

/-! ## Stack frame resolution -/

/-- The test `calling_frame` applies to a resolved declaring-type name: it
starts with none of the six infrastructure names. -/
def calling_frame_accepts (class_name : String) : Bool :=
  strncmp class_name.data "Ljava/".data 6 != 0
    && strncmp class_name.data "Lcom/sun/".data 9 != 0
    && strncmp class_name.data "Ljdk/".data 5 != 0
    && strncmp class_name.data "Ljavax/".data 7 != 0
    && strncmp class_name.data "Lsun/management".data 15 != 0
    && strncmp class_name.data "Lclojure/".data 9 != 0

/-- The loop of `calling_frame` over the frames not yet visited: `framei` is
the index of the first of them, `class_name` the name resolved last.  The
result is the value of `framei` when the loop ends (the number of frames when
it ends without `break`). -/
def calling_frame_loop (h : Host) :
    List jvmtiFrameInfo → Nat → Option String → Nat × Option String
  | [], framei, class_name => (framei, class_name)
  | frame :: rest, framei, class_name =>
    match h.GetMethodDeclaringClass frame.method with
    | none => calling_frame_loop h rest (framei + 1) class_name
    | some declaring_class =>
      match h.GetClassSignature declaring_class with
      | none => calling_frame_loop h rest (framei + 1) class_name
      | some name =>
        if calling_frame_accepts name then (framei, some name)
        else calling_frame_loop h rest (framei + 1) (some name)

/-- `calling_frame`: the index of the first frame accepted, 0 when the loop
runs through all `num_frames` frames. -/
def calling_frame (h : Host) (frames : List jvmtiFrameInfo) : Nat × Option String :=
  let num_frames := frames.length
  let r := calling_frame_loop h frames 0 none
  if r.1 ≥ num_frames then (0, r.2) else r

/-- The loop of `frame_detail` over the entries of the line table after the
first: stops at the first entry that starts beyond `location`. -/
def line_scan (location : Int) : List jvmtiLineNumberEntry → Int → Int
  | [], line_num => line_num
  | e :: rest, line_num =>
    if location < e.start_location then line_num
    else line_scan location rest e.line_number

/-- `frame_detail`: declaring type, method name, source file and line of a
frame.  The source reads `line_table[0]` without looking at `entry_count`; for
a table without entries the model reads an entry of zeros. -/
def frame_detail (h : Host) (frame : jvmtiFrameInfo) :
    Option String × Option String × Option String × Int :=
  let declaring_class := h.GetMethodDeclaringClass frame.method
  let class_name := declaring_class.bind h.GetClassSignature
  let method_name := h.GetMethodName frame.method
  let line_num :=
    match h.GetLineNumberTable frame.method with
    | some line_table =>
      line_scan frame.location (line_table.drop 1)
        (line_table.headD { start_location := 0, line_number := 0 }).line_number
    | none => -1
  let source_name := declaring_class.bind h.GetSourceFileName
  (class_name, method_name, source_name, line_num)

/-- `allocation_record`: builds the record of a sampled allocation from the
captured frames, with a fresh tag.  With no frame captured, `frames[0]` is the
uninitialised first entry of the array.  The tag is taken before the record is
constructed, so it is consumed also when the construction throws (`none`). -/
def allocation_record (h : Host) (class_sig : String) (size : Int) (thread : jthread)
    (frames : List jvmtiFrameInfo) (s : State) : Option alloc_rec × State :=
  let f0 := frame_detail h (frames.getD 0 h.stack_buffer)
  let cf := calling_frame h frames
  let framei := cf.1
  let fi := frame_detail h (frames.getD framei h.stack_buffer)
  let tid := h.Thread_getId thread
  let t := next_tag s
  (alloc_rec.alloc_rec class_sig size fi.1 fi.2.1 fi.2.2.1 fi.2.2.2
    f0.1 f0.2.1 f0.2.2.1 f0.2.2.2 tid t.1, t.2)

/-- The class and method names of the two frames `allocation_record` looks at
(the allocation site `frames[0]` and the calling site) are resolved, so that
the constructor of `alloc_rec` gets no null name. -/
def names_resolve (h : Host) (frames : List jvmtiFrameInfo) : Bool :=
  (frame_detail h (frames.getD 0 h.stack_buffer)).1.isSome
    && (frame_detail h (frames.getD 0 h.stack_buffer)).2.1.isSome
    && (frame_detail h (frames.getD (calling_frame h frames).1 h.stack_buffer)).1.isSome
    && (frame_detail h (frames.getD (calling_frame h frames).1 h.stack_buffer)).2.1.isSome

/-! ## The handlers -/

/-- `is_allocs_empty`. -/
def is_allocs_empty (s : State) : Bool := s.allocs.isEmpty

/-- `jvmti->SetTag(object, tag)`. -/
def SetTag (object : jobject) (tag : Int) (s : State) : State :=
  { s with host_calls := s.host_calls ++ [HostCall.SetTag object tag] }

/-- `SampledObjectAlloc`: the handler of a sampled allocation.  When the
construction of the record throws, the handler is left with the tag consumed
and nothing else done. -/
def SampledObjectAlloc (h : Host) (thread : jthread) (object : jobject)
    (object_klass : jclass) (size : Int) (s : State) : State :=
  match h.GetClassSignature object_klass with
  | none => s
  | some class_sig =>
    if is_allocs_empty s = true ∧ s.agent_state = allocation_tracing_starting then
      if strcmp class_sig.data allocation_start_marker.data = 0 then
        set_state_env allocation_tracing_active s
      else s
    else
      match h.GetStackTrace thread with
      | none => s
      | some stack =>
        let frames := stack.take MAX_FRAMES
        let r := allocation_record h class_sig size thread frames s
        match r.1 with
        | none => r.2
        | some rec =>
          let s1 := SetTag object rec.tag r.2
          let p :=
            if s1.agent_state = allocation_tracing_stopping
                ∧ strcmp class_sig.data allocation_finish_marker.data = 0 then
              ({ rec with disable_marker := true },
                set_state_env allocation_tracing_flushing
                  { s1 with sampled_object_alloc_enabled := false })
            else (rec, s1)
          { p.2 with
            allocs_by_tag := map_emplace p.2.allocs_by_tag p.1.tag p.2.allocs.length
            allocs := p.2.allocs ++ [p.1] }

/-- `all_tags`: a vector of `allocs.size()` zeros, to which the tag of every
record is appended. -/
def all_tags (allocs : List alloc_rec) : List Int :=
  List.replicate allocs.length 0 ++ allocs.map (fun r => r.tag)

/-- The loop of `untag_objects`: `SetTag(objects[i], 0)` for every object the
host returned. -/
def untag_loop : List jobject → State → State
  | [], s => s
  | o :: rest, s => untag_loop rest (SetTag o 0 s)

/-- `untag_objects`: asks the host for the objects carrying the tags of
`all_tags`, sets the tag of each to 0, and clears the tag index. -/
def untag_objects (h : Host) (s : State) : State :=
  let tags := all_tags s.allocs
  let s1 :=
    if tags.length > 0 then
      untag_loop (h.GetObjectsWithTags tags)
        { s with host_calls := s.host_calls ++ [HostCall.GetObjectsWithTags tags] }
    else s
  { s1 with allocs_by_tag := [] }

/-- `ObjectFree`: the handler of the free event of a tagged object.  A tag
without an entry (`std::out_of_range`, caught) changes nothing.  The pointer
found is followed into `allocs`; an entry pointing outside `allocs` would be
a dangling pointer and is treated as absent. -/
def ObjectFree (tag : Int) (s : State) : State :=
  match map_at s.allocs_by_tag tag with
  | none => s
  | some p =>
    match s.allocs[p]? with
    | none => s
    | some r =>
      let s1 := { s with allocs := s.allocs.set p { r with freed := 1 } }
      if s1.agent_state = allocation_tracing_flushing ∧ r.disable_marker = true then
        set_state allocation_tracing_flushed { s1 with object_free_enabled := false }
      else s1

/-- The arguments `allocation_tracing_report` gives to the `Allocation`
constructor for one record. -/
def NewObject (alloc : alloc_rec) : Allocation :=
  (alloc.obj_class, alloc.obj_size,
    alloc.call_class, alloc.call_method, alloc.call_file, alloc.call_line,
    alloc.alloc_class, alloc.alloc_method, alloc.alloc_file, alloc.alloc_line,
    alloc.thread_id, alloc.freed)

/-- The loop of `allocation_tracing_report`: one object built and passed to
`Agent.data1` per record, in the order of `allocs`. -/
def report_loop : List alloc_rec → List Allocation
  | [] => []
  | alloc :: rest => NewObject alloc :: report_loop rest

/-- `allocation_tracing_report`: emits every record, untags the objects and
clears the store.  The second component is what `Agent.data1` received. -/
def allocation_tracing_report (h : Host) (s : State) : State × List Allocation :=
  let emitted := report_loop s.allocs
  let s1 := untag_objects h s
  ({ s1 with allocs := [] }, emitted)

/-- `enable_allocation_tracing`: the start command. -/
def enable_allocation_tracing (s : State) : State :=
  let s1 := set_state_env allocation_tracing_starting s
  { s1 with
    allocs := []
    allocs_by_tag := []
    heap_sampling_interval := 0
    sampled_object_alloc_enabled := true
    object_free_enabled := true }

/-- `disable_allocation_tracing`: the stop command. -/
def disable_allocation_tracing (s : State) : State :=
  set_state_env allocation_tracing_stopping s

/-- `Agent_command`: the command dispatcher.  The second component is what
`Agent.data1` received. -/
def Agent_command (h : Host) (cmd : Int) (s : State) : State × List Data1 :=
  if ping = cmd then (s, [Data1.Alive])
  else if sync_state = cmd then (set_state_env s.agent_state s, [])
  else if start_allocation_tracing = cmd then (enable_allocation_tracing s, [])
  else if stop_allocation_tracing = cmd then (disable_allocation_tracing s, [])
  else if report_allocation_tracing = cmd then
    let r := allocation_tracing_report h s
    (r.1, r.2.map Data1.Allocation)
  else (s, [])

/-! ## Runs of the engine -/

/-- The state after `Agent_OnLoad` (without a sampling option) and `VMInit`. -/
def init : State :=
  { agent_state := passive
    agent_state_field := passive
    next_object_tag := 0
    allocs := []
    allocs_by_tag := []
    sampled_object_alloc_enabled := false
    object_free_enabled := false
    heap_sampling_interval := 0
    host_calls := [] }

/-- A sampled-allocation event: the arguments of `SampledObjectAlloc` and
the answers the host gives while it is handled. -/
structure SampledAlloc where
  host : Host
  thread : jthread
  object : jobject
  object_klass : jclass
  size : Int

/-- What the engine reacts to: a command of the application, a
sampled-allocation event, a free event. -/
inductive Input where
  | command (h : Host) (cmd : Int)
  | alloc (e : SampledAlloc)
  | free (tag : Int)

/-- The reaction of the engine to one input. -/
def step (s : State) : Input → State
  | Input.command h cmd => (Agent_command h cmd s).1
  | Input.alloc e => SampledObjectAlloc e.host e.thread e.object e.object_klass e.size s
  | Input.free tag => ObjectFree tag s

/-- The state after a sequence of inputs, handled one after the other. -/
def run (s : State) : List Input → State
  | [] => s
  | i :: rest => run (step s i) rest

/-! ## Locks and host calls, in the order the code makes them

A second reading of the same functions: instead of the state they leave
behind, the sequence of raw monitor operations and of calls into the JVM
(JVMTI and JNI functions, named by the function called) they perform.  The
calls the wrappers `allocated` and `local_ref` make in their destructors
(`Deallocate`, and `DeleteLocalRef` for a reference that is not null) stand
where the scope of the variable ends; a reference the JVM returns from
`NewStringUTF` or `NewObject` is taken to be non-null, and the VM to be
alive. -/

/-- The two raw monitors of the agent. -/
inductive Lock where
  | sample_lock
  | tag_lock
deriving DecidableEq, Repr

/-- What an operation does, as far as locking is concerned. -/
inductive Action where
  | RawMonitorEnter (id : Lock)
  | RawMonitorExit (id : Lock)
  | call (name : String)
deriving DecidableEq, Repr

/-- The calls made while `sample_lock` is held, in order; `held` tells whether
it is held at the start. -/
def calls_under_sample_lock (held : Bool) : List Action → List String
  | [] => []
  | Action.RawMonitorEnter Lock.sample_lock :: rest => calls_under_sample_lock true rest
  | Action.RawMonitorExit Lock.sample_lock :: rest => calls_under_sample_lock false rest
  | Action.RawMonitorEnter Lock.tag_lock :: rest => calls_under_sample_lock held rest
  | Action.RawMonitorExit Lock.tag_lock :: rest => calls_under_sample_lock held rest
  | Action.call name :: rest =>
    if held then name :: calls_under_sample_lock held rest
    else calls_under_sample_lock held rest

/-- Whether `sample_lock` is held after a sequence of actions; `held` tells
whether it is held at the start. -/
def sample_lock_held_after (held : Bool) : List Action → Bool
  | [] => held
  | Action.RawMonitorEnter Lock.sample_lock :: rest => sample_lock_held_after true rest
  | Action.RawMonitorExit Lock.sample_lock :: rest => sample_lock_held_after false rest
  | _ :: rest => sample_lock_held_after held rest

/-- All calls of a sequence of actions, in order. -/
def calls_of : List Action → List String
  | [] => []
  | Action.call name :: rest => name :: calls_of rest
  | _ :: rest => calls_of rest

/-- `next_tag`, as actions: the counter is read and incremented under
`tag_lock`. -/
def next_tag_actions : List Action :=
  [Action.RawMonitorEnter Lock.tag_lock, Action.RawMonitorExit Lock.tag_lock]

/-- `is_allocs_empty`, as actions: `allocs.empty()` under `sample_lock`. -/
def is_allocs_empty_actions : List Action :=
  [Action.RawMonitorEnter Lock.sample_lock, Action.RawMonitorExit Lock.sample_lock]

/-- `set_state(JNIEnv*, jlong)`, as calls. -/
def set_state_env_calls : List String := ["SetStaticLongField"]

/-- The calls of the loop of `calling_frame`: per frame visited
`GetMethodDeclaringClass`, then, when it succeeded, `GetClassSignature` and the
release of the class reference at the end of the iteration. -/
def calling_frame_loop_calls (h : Host) : List jvmtiFrameInfo → List String
  | [] => []
  | frame :: rest =>
    match h.GetMethodDeclaringClass frame.method with
    | none => "GetMethodDeclaringClass" :: calling_frame_loop_calls h rest
    | some declaring_class =>
      match h.GetClassSignature declaring_class with
      | none =>
        ["GetMethodDeclaringClass", "GetClassSignature", "DeleteLocalRef"]
          ++ calling_frame_loop_calls h rest
      | some name =>
        if calling_frame_accepts name then
          ["GetMethodDeclaringClass", "GetClassSignature", "DeleteLocalRef"]
        else
          ["GetMethodDeclaringClass", "GetClassSignature", "DeleteLocalRef"]
            ++ calling_frame_loop_calls h rest

/-- The calls of `calling_frame`: the loop, then the destructor of
`class_name`. -/
def calling_frame_calls (h : Host) (frames : List jvmtiFrameInfo) : List String :=
  calling_frame_loop_calls h frames ++ ["Deallocate"]

/-- The calls of `frame_detail`: the five queries, then the destructors of
`source_name`, `line_table`, `method_name`, `class_name` and, when the
declaring class was resolved, of `declaring_class`. -/
def frame_detail_calls (h : Host) (frame : jvmtiFrameInfo) : List String :=
  ["GetMethodDeclaringClass", "GetClassSignature", "GetMethodName", "GetLineNumberTable",
    "GetSourceFileName", "Deallocate", "Deallocate", "Deallocate", "Deallocate"]
    ++ (match h.GetMethodDeclaringClass frame.method with
      | none => []
      | some _ => ["DeleteLocalRef"])

/-- `allocation_record`, as actions: the frame queries, the thread id,
`next_tag`, and at the end the destructors of the seven strings of the three
tuples. -/
def allocation_record_actions (h : Host) (frames : List jvmtiFrameInfo) : List Action :=
  (frame_detail_calls h (frames.getD 0 h.stack_buffer)).map Action.call
    ++ (calling_frame_calls h frames).map Action.call
    ++ (frame_detail_calls h
        (frames.getD (calling_frame h frames).1 h.stack_buffer)).map Action.call
    ++ [Action.call "CallLongMethod"]
    ++ next_tag_actions
    ++ (List.replicate 7 "Deallocate").map Action.call

/-- `SampledObjectAlloc`, as actions.  `sample_lock` is entered after the
record is built and tagged and left at the end of the block, after the two
insertions; the destructor of `class_sig` runs at every return.  When the
construction of the record throws, the handler is left through the
destructors, without tagging and without entering `sample_lock`. -/
def SampledObjectAlloc_actions (h : Host) (thread : jthread) (object_klass : jclass)
    (s : State) : List Action :=
  match h.GetClassSignature object_klass with
  | none => [Action.call "GetClassSignature", Action.call "Deallocate"]
  | some class_sig =>
    [Action.call "GetClassSignature"] ++ is_allocs_empty_actions ++
    (if is_allocs_empty s = true ∧ s.agent_state = allocation_tracing_starting then
      (if strcmp class_sig.data allocation_start_marker.data = 0 then
        set_state_env_calls.map Action.call
      else [])
    else
      match h.GetStackTrace thread with
      | none => [Action.call "GetStackTrace"]
      | some stack =>
        [Action.call "GetStackTrace"]
          ++ allocation_record_actions h (stack.take MAX_FRAMES)
          ++ (if names_resolve h (stack.take MAX_FRAMES) = true then
              [Action.call "SetTag"]
                ++ (if s.agent_state = allocation_tracing_stopping
                      ∧ strcmp class_sig.data allocation_finish_marker.data = 0 then
                    [Action.call "SetEventNotificationMode"]
                      ++ set_state_env_calls.map Action.call
                  else [])
                ++ [Action.RawMonitorEnter Lock.sample_lock,
                  Action.RawMonitorExit Lock.sample_lock]
            else []))
    ++ [Action.call "Deallocate"]

/-- `untag_objects`, as calls: for a non-empty tag list the query, one
`SetTag` per object returned, and the destructors of `object_tags` and
`objects`. -/
def untag_objects_calls (h : Host) (s : State) : List String :=
  if (all_tags s.allocs).length > 0 then
    ["GetObjectsWithTags"]
      ++ (h.GetObjectsWithTags (all_tags s.allocs)).map (fun _ => "SetTag")
      ++ ["Deallocate", "Deallocate"]
  else []

/-- `ObjectFree`, as actions: the whole body runs under `sample_lock`. -/
def ObjectFree_actions (tag : Int) (s : State) : List Action :=
  [Action.RawMonitorEnter Lock.sample_lock]
    ++ (match map_at s.allocs_by_tag tag with
      | none => []
      | some p =>
        match s.allocs[p]? with
        | none => []
        | some r =>
          if s.agent_state = allocation_tracing_flushing ∧ r.disable_marker = true then
            [Action.call "SetEventNotificationMode"]
          else [])
    ++ [Action.RawMonitorExit Lock.sample_lock]

/-- The calls of one iteration of the loop of `allocation_tracing_report`:
seven strings, the object, its delivery to `Agent.data1`, and the release of
the eight references at the end of the iteration. -/
def report_iteration_calls : List String :=
  List.replicate 7 "NewStringUTF" ++ ["NewObject", "CallStaticVoidMethod"]
    ++ List.replicate 8 "DeleteLocalRef"

/-- The calls of the loop of `allocation_tracing_report`. -/
def report_loop_calls : List alloc_rec → List String
  | [] => []
  | _ :: rest => report_iteration_calls ++ report_loop_calls rest

/-- `allocation_tracing_report`, as actions: the whole body, the loop and
`untag_objects` included, runs under `sample_lock`. -/
def allocation_tracing_report_actions (h : Host) (s : State) : List Action :=
  [Action.RawMonitorEnter Lock.sample_lock]
    ++ (report_loop_calls s.allocs).map Action.call
    ++ (untag_objects_calls h s).map Action.call
    ++ [Action.RawMonitorExit Lock.sample_lock]

/-- `enable_allocation_tracing`, as actions: the two `clear` calls run under
`sample_lock`, in a block of their own. -/
def enable_allocation_tracing_actions : List Action :=
  set_state_env_calls.map Action.call
    ++ [Action.RawMonitorEnter Lock.sample_lock, Action.RawMonitorExit Lock.sample_lock]
    ++ [Action.call "SetHeapSamplingInterval", Action.call "SetEventNotificationMode",
      Action.call "SetEventNotificationMode"]

/-- The tag counter stays below the largest `jlong` in every state of the run
of `inputs` from `s`, so that no increment of `next_tag` wraps. -/
def counter_in_range : State → List Input → Prop
  | s, [] => s.next_object_tag < jlong_max
  | s, i :: rest => s.next_object_tag < jlong_max ∧ counter_in_range (step s i) rest

/-- An input that clears the store: the start command or the report
command. -/
def clears_store : Input → Prop
  | Input.command _ cmd => cmd = start_allocation_tracing ∨ cmd = report_allocation_tracing
  | _ => False

/-- Along the run of `inputs` from `s`, every sampled allocation of the start
marker type arrives while the tracing state is `starting`. -/
def start_marker_while_starting : State → List Input → Prop
  | _, [] => True
  | s, i :: rest =>
    (match i with
      | Input.alloc e =>
        e.host.GetClassSignature e.object_klass = some allocation_start_marker →
          s.agent_state = allocation_tracing_starting
      | _ => True)
    ∧ start_marker_while_starting (step s i) rest

/-- The tags of the records are below the counter and increase along the
record sequence, and the tag index holds exactly the tags of the records, each
with the position of its record. -/
def well_formed (s : State) : Prop :=
  0 ≤ s.next_object_tag
  ∧ (∀ r ∈ s.allocs, r.tag < s.next_object_tag)
  ∧ (s.allocs.map (fun r => r.tag)).Pairwise (fun a b => a < b)
  ∧ (∀ (t : Int) (p : Nat), map_at s.allocs_by_tag t = some p →
      ∃ r, s.allocs[p]? = some r ∧ r.tag = t)
  ∧ (∀ (p : Nat) (r : alloc_rec), s.allocs[p]? = some r →
      map_at s.allocs_by_tag r.tag = some p)

/-! ## Notions of the specification -/

/-- The infrastructure name beginnings listed by the specification of
`calling_frame`. -/
def infrastructure_names : List String :=
  ["Ljava/", "Lcom/sun/", "Ljdk/", "Ljavax/", "Lsun/management", "Lclojure/"]

/-- A type name starts with one of the infrastructure names. -/
def is_infrastructure (name : String) : Prop :=
  ∃ p ∈ infrastructure_names, p.data <+: name.data

/-- The declaring-type name of a frame as the host resolves it. -/
def declaring_type_name (h : Host) (frame : jvmtiFrameInfo) : Option String :=
  (h.GetMethodDeclaringClass frame.method).bind h.GetClassSignature

/-! ## A host and events for the examples -/

/-- A host that knows five classes (1 the start marker, 2 the stop marker,
3 `LFoo;`, 4 a class of the platform library, 5 a class of the application)
and three methods (1 in class 3, 2 in class 4, 3 in class 5), and captures the
same three-frame stack for every thread. -/
def demo_host : Host :=
  { GetClassSignature := fun c =>
      match c with
      | 1 => some allocation_start_marker
      | 2 => some allocation_finish_marker
      | 3 => some "LFoo;"
      | 4 => some "Ljava/lang/reflect/Constructor;"
      | 5 => some "Lapp/Main;"
      | _ => none
    GetStackTrace := fun _ =>
      some [{ method := 1, location := 4 }, { method := 2, location := 9 },
        { method := 3, location := 30 }]
    GetMethodDeclaringClass := fun m =>
      match m with
      | 1 => some 3
      | 2 => some 4
      | 3 => some 5
      | _ => none
    GetMethodName := fun m =>
      match m with
      | 1 => some "<init>"
      | 2 => some "newInstance"
      | 3 => some "main"
      | _ => none
    GetLineNumberTable := fun m =>
      match m with
      | 1 => some [{ start_location := 0, line_number := 10 },
          { start_location := 4, line_number := 11 }]
      | 3 => some [{ start_location := 0, line_number := 20 },
          { start_location := 16, line_number := 22 },
          { start_location := 40, line_number := 25 }]
      | _ => none
    GetSourceFileName := fun c =>
      match c with
      | 3 => some "Foo.java"
      | 5 => some "Main.java"
      | _ => none
    Thread_getId := fun t => t
    GetObjectsWithTags := fun _ => []
    stack_buffer := { method := 0, location := 0 } }

/-- The start command. -/
def demo_start : Input := Input.command demo_host start_allocation_tracing

/-- The stop command. -/
def demo_stop : Input := Input.command demo_host stop_allocation_tracing

/-- The report command. -/
def demo_report : Input := Input.command demo_host report_allocation_tracing

/-- A sampled allocation of the start marker (object 100, thread 7). -/
def demo_alloc_start_marker : Input :=
  Input.alloc { host := demo_host, thread := 7, object := 100, object_klass := 1, size := 0 }

/-- A sampled allocation of the stop marker (object 101, thread 7). -/
def demo_alloc_finish_marker : Input :=
  Input.alloc { host := demo_host, thread := 7, object := 101, object_klass := 2, size := 0 }

/-- The sampled allocation of a `Foo` of 24 bytes (object 102, thread 7). -/
def demo_foo_event : SampledAlloc :=
  { host := demo_host, thread := 7, object := 102, object_klass := 3, size := 24 }

/-- The sampled allocation of a `Main` of 16 bytes (object 103, thread 8). -/
def demo_main_event : SampledAlloc :=
  { host := demo_host, thread := 8, object := 103, object_klass := 5, size := 16 }

/-- A sampled allocation of a `Foo` of 24 bytes (object 102, thread 7). -/
def demo_alloc_foo : Input := Input.alloc demo_foo_event

/-- A host whose method 1 has a line table that is not ordered by start
offset: `(0, 1), (10, 2), (5, 3)`. -/
def unsorted_host : Host :=
  { demo_host with
    GetLineNumberTable := fun m =>
      match m with
      | 1 => some [{ start_location := 0, line_number := 1 },
          { start_location := 10, line_number := 2 },
          { start_location := 5, line_number := 3 }]
      | _ => none }

/-- A host that resolves no method name. -/
def nameless_host : Host :=
  { demo_host with GetMethodName := fun _ => none }

/-- A host that captures no frame and whose frame array holds a method
unknown to it. -/
def frameless_host : Host :=
  { demo_host with
    GetStackTrace := fun _ => some []
    stack_buffer := { method := 99, location := 0 } }

/-- A tracing session up to the observation of the stop marker: start, start
marker, one `Foo`, stop, stop marker. -/
def demo_session : List Input :=
  [demo_start, demo_alloc_start_marker, demo_alloc_foo, demo_stop, demo_alloc_finish_marker]

/-- A stack with two frames of the platform library above a frame of the
application. -/
def demo_deep_stack : List jvmtiFrameInfo :=
  [{ method := 2, location := 9 }, { method := 2, location := 1 },
    { method := 3, location := 30 }]

/-- The record the example host lets the engine build for `demo_foo_event`
when the counter is 0. -/
def demo_foo_record : alloc_rec :=
  { obj_class := "LFoo;"
    obj_size := 24
    call_class := "LFoo;"
    call_method := "<init>"
    call_file := "Foo.java"
    call_line := 11
    alloc_class := "LFoo;"
    alloc_method := "<init>"
    alloc_file := "Foo.java"
    alloc_line := 11
    thread_id := 7
    freed := 0
    tag := 0
    disable_marker := false }

/-- A run with a report in the middle: start, start marker, a `Foo`, report,
a `Foo`, a `Main`. -/
def demo_two_sessions : List Input :=
  [demo_start, demo_alloc_start_marker, demo_alloc_foo, demo_report, demo_alloc_foo,
    Input.alloc demo_main_event]

/-! ## Basic facts -/

theorem strcmp_eq_zero_iff (a b : List Char) : strcmp a b = 0 ↔ a = b := by
  induction a generalizing b with
  | nil => cases b <;> simp [strcmp]
  | cons x xs ih =>
    cases b with
    | nil => simp [strcmp]
    | cons y ys =>
      simp only [strcmp]
      split
      · simp [*, ih]
      · split <;> simp [*]

theorem strcmp_data_eq_zero_iff (a b : String) : strcmp a.data b.data = 0 ↔ a = b := by
  rw [strcmp_eq_zero_iff, String.ext_iff]

theorem is_allocs_empty_iff (s : State) : is_allocs_empty s = true ↔ s.allocs = [] := by
  simp [is_allocs_empty, List.isEmpty_iff]

/-! ## The record-building path -/

theorem allocation_record_state (h : Host) (class_sig : String) (size : Int) (thread : jthread)
    (frames : List jvmtiFrameInfo) (s : State) :
    (allocation_record h class_sig size thread frames s).2
      = { s with next_object_tag := jlong_wrap (s.next_object_tag + 1) } := rfl

theorem alloc_rec_isSome (obj_class : String) (obj_size : Int)
    (call_class call_method call_file : Option String) (call_line : Int)
    (alloc_class alloc_method alloc_file : Option String) (alloc_line : Int)
    (thread_id tag : Int) :
    (alloc_rec.alloc_rec obj_class obj_size call_class call_method call_file call_line
        alloc_class alloc_method alloc_file alloc_line thread_id tag).isSome
      = (alloc_class.isSome && alloc_method.isSome && call_class.isSome
          && call_method.isSome) := by
  cases call_class <;> cases call_method <;> cases alloc_class <;> cases alloc_method <;> rfl

theorem alloc_rec_built (obj_class : String) (obj_size : Int)
    (call_class call_method call_file : Option String) (call_line : Int)
    (alloc_class alloc_method alloc_file : Option String) (alloc_line : Int)
    (thread_id tag : Int) (r : alloc_rec)
    (hb : alloc_rec.alloc_rec obj_class obj_size call_class call_method call_file call_line
        alloc_class alloc_method alloc_file alloc_line thread_id tag = some r) :
    r.tag = tag ∧ r.freed = 0 ∧ r.disable_marker = false
    ∧ r.obj_class = obj_class ∧ r.obj_size = obj_size ∧ r.thread_id = thread_id := by
  cases call_class <;> cases call_method <;> cases alloc_class <;> cases alloc_method <;>
    first
    | exact Option.noConfusion hb
    | (have hr := Option.some.inj hb
       subst hr
       exact ⟨rfl, rfl, rfl, rfl, rfl, rfl⟩)

/-- The record is constructed exactly when the names are resolved. -/
theorem allocation_record_isSome (h : Host) (class_sig : String) (size : Int)
    (thread : jthread) (frames : List jvmtiFrameInfo) (s : State) :
    (allocation_record h class_sig size thread frames s).1.isSome = names_resolve h frames :=
  alloc_rec_isSome _ _ _ _ _ _ _ _ _ _ _ _

/-- What is known of a record `allocation_record` has constructed. -/
theorem allocation_record_built (h : Host) (class_sig : String) (size : Int)
    (thread : jthread) (frames : List jvmtiFrameInfo) (s : State) (r : alloc_rec)
    (hb : (allocation_record h class_sig size thread frames s).1 = some r) :
    r.tag = s.next_object_tag ∧ r.freed = 0 ∧ r.disable_marker = false
    ∧ r.obj_class = class_sig ∧ r.obj_size = size
    ∧ r.thread_id = h.Thread_getId thread :=
  alloc_rec_built _ _ _ _ _ _ _ _ _ _ _ _ r hb

/-- With the names resolved, `allocation_record` constructs a record. -/
theorem allocation_record_of_names (h : Host) (class_sig : String) (size : Int)
    (thread : jthread) (frames : List jvmtiFrameInfo) (s : State)
    (hn : names_resolve h frames = true) :
    ∃ r, (allocation_record h class_sig size thread frames s).1 = some r := by
  have hs := allocation_record_isSome h class_sig size thread frames s
  rw [hn] at hs
  exact Option.isSome_iff_exists.1 hs

/-- The state an event leaves behind when it reaches the record-building
path and the construction of the record throws: the tag is consumed. -/
theorem SampledObjectAlloc_throws (h : Host) (thread : jthread) (object : jobject)
    (object_klass : jclass) (size : Int) (s : State) (class_sig : String)
    (stack : List jvmtiFrameInfo)
    (hsig : h.GetClassSignature object_klass = some class_sig)
    (hpath : ¬ (s.allocs = [] ∧ s.agent_state = allocation_tracing_starting))
    (hstack : h.GetStackTrace thread = some stack)
    (hb : (allocation_record h class_sig size thread (stack.take MAX_FRAMES) s).1 = none) :
    SampledObjectAlloc h thread object object_klass size s =
      { s with next_object_tag := jlong_wrap (s.next_object_tag + 1) } := by
  unfold SampledObjectAlloc
  rw [hsig]
  simp only [is_allocs_empty_iff, strcmp_data_eq_zero_iff, hpath, if_false, hstack, hb]
  rfl

/-- The state an event leaves behind when it reaches the record-building
path, the record `r` is constructed and the stop marker does not fire. -/
theorem SampledObjectAlloc_record (h : Host) (thread : jthread) (object : jobject)
    (object_klass : jclass) (size : Int) (s : State) (class_sig : String)
    (stack : List jvmtiFrameInfo) (r : alloc_rec)
    (hsig : h.GetClassSignature object_klass = some class_sig)
    (hpath : ¬ (s.allocs = [] ∧ s.agent_state = allocation_tracing_starting))
    (hstack : h.GetStackTrace thread = some stack)
    (hb : (allocation_record h class_sig size thread (stack.take MAX_FRAMES) s).1 = some r)
    (hc : ¬ (s.agent_state = allocation_tracing_stopping
      ∧ class_sig = allocation_finish_marker)) :
    SampledObjectAlloc h thread object object_klass size s =
      { s with
        next_object_tag := jlong_wrap (s.next_object_tag + 1)
        host_calls := s.host_calls ++ [HostCall.SetTag object s.next_object_tag]
        allocs_by_tag := map_emplace s.allocs_by_tag s.next_object_tag s.allocs.length
        allocs := s.allocs ++ [r] } := by
  have ht := (allocation_record_built h class_sig size thread _ s r hb).1
  unfold SampledObjectAlloc
  rw [hsig]
  simp only [is_allocs_empty_iff, strcmp_data_eq_zero_iff, hpath, if_false, hstack, hb]
  rw [if_neg (by simpa [allocation_record_state, SetTag] using hc)]
  simp only [allocation_record_state, SetTag, ht]

/-- The state an event leaves behind when it reaches the record-building
path, the record `r` is constructed and the stop marker fires. -/
theorem SampledObjectAlloc_record_stop (h : Host) (thread : jthread) (object : jobject)
    (object_klass : jclass) (size : Int) (s : State) (class_sig : String)
    (stack : List jvmtiFrameInfo) (r : alloc_rec)
    (hsig : h.GetClassSignature object_klass = some class_sig)
    (hstack : h.GetStackTrace thread = some stack)
    (hb : (allocation_record h class_sig size thread (stack.take MAX_FRAMES) s).1 = some r)
    (hc : s.agent_state = allocation_tracing_stopping
      ∧ class_sig = allocation_finish_marker) :
    SampledObjectAlloc h thread object object_klass size s =
      { s with
        agent_state := allocation_tracing_flushing
        agent_state_field := allocation_tracing_flushing
        sampled_object_alloc_enabled := false
        next_object_tag := jlong_wrap (s.next_object_tag + 1)
        host_calls := s.host_calls ++ [HostCall.SetTag object s.next_object_tag]
        allocs_by_tag := map_emplace s.allocs_by_tag s.next_object_tag s.allocs.length
        allocs := s.allocs ++ [{ r with disable_marker := true }] } := by
  have ht := (allocation_record_built h class_sig size thread _ s r hb).1
  have hpath : ¬ (s.allocs = [] ∧ s.agent_state = allocation_tracing_starting) := by
    rw [hc.1]; simp [allocation_tracing_stopping, allocation_tracing_starting]
  unfold SampledObjectAlloc
  rw [hsig]
  simp only [is_allocs_empty_iff, strcmp_data_eq_zero_iff, hpath, if_false, hstack, hb]
  rw [if_pos (by simpa [allocation_record_state, SetTag] using hc)]
  simp only [allocation_record_state, SetTag, ht, set_state_env, set_state]

/-- The five ways `SampledObjectAlloc` can end: nothing changes (a failed
resolution, or an event dropped while waiting for the start marker); the start
marker is observed; a record is appended; the stop marker is recorded; the
construction of the record throws and only the tag is consumed. -/
theorem SampledObjectAlloc_cases (h : Host) (thread : jthread) (object : jobject)
    (object_klass : jclass) (size : Int) (s : State) :
    SampledObjectAlloc h thread object object_klass size s = s
    ∨ (s.allocs = [] ∧ s.agent_state = allocation_tracing_starting
        ∧ h.GetClassSignature object_klass = some allocation_start_marker
        ∧ SampledObjectAlloc h thread object object_klass size s
            = set_state_env allocation_tracing_active s)
    ∨ (∃ class_sig stack r, h.GetClassSignature object_klass = some class_sig
        ∧ ¬ (s.allocs = [] ∧ s.agent_state = allocation_tracing_starting)
        ∧ h.GetStackTrace thread = some stack
        ∧ ¬ (s.agent_state = allocation_tracing_stopping
            ∧ class_sig = allocation_finish_marker)
        ∧ (allocation_record h class_sig size thread (stack.take MAX_FRAMES) s).1 = some r
        ∧ SampledObjectAlloc h thread object object_klass size s =
          { s with
            next_object_tag := jlong_wrap (s.next_object_tag + 1)
            host_calls := s.host_calls ++ [HostCall.SetTag object s.next_object_tag]
            allocs_by_tag := map_emplace s.allocs_by_tag s.next_object_tag s.allocs.length
            allocs := s.allocs ++ [r] })
    ∨ (∃ stack r, h.GetClassSignature object_klass = some allocation_finish_marker
        ∧ h.GetStackTrace thread = some stack
        ∧ s.agent_state = allocation_tracing_stopping
        ∧ (allocation_record h allocation_finish_marker size thread
            (stack.take MAX_FRAMES) s).1 = some r
        ∧ SampledObjectAlloc h thread object object_klass size s =
          { s with
            agent_state := allocation_tracing_flushing
            agent_state_field := allocation_tracing_flushing
            sampled_object_alloc_enabled := false
            next_object_tag := jlong_wrap (s.next_object_tag + 1)
            host_calls := s.host_calls ++ [HostCall.SetTag object s.next_object_tag]
            allocs_by_tag := map_emplace s.allocs_by_tag s.next_object_tag s.allocs.length
            allocs := s.allocs ++ [{ r with disable_marker := true }] })
    ∨ SampledObjectAlloc h thread object object_klass size s =
        { s with next_object_tag := jlong_wrap (s.next_object_tag + 1) } := by
  cases hsig : h.GetClassSignature object_klass with
  | none => left; simp only [SampledObjectAlloc, hsig]
  | some class_sig =>
    by_cases hpath : s.allocs = [] ∧ s.agent_state = allocation_tracing_starting
    · by_cases hm : class_sig = allocation_start_marker
      · right; left
        refine ⟨hpath.1, hpath.2, by rw [hm], ?_⟩
        simp only [SampledObjectAlloc, hsig, is_allocs_empty_iff, hpath, and_self, if_true,
          strcmp_data_eq_zero_iff, hm]
      · left
        simp only [SampledObjectAlloc, hsig, is_allocs_empty_iff, hpath, and_self, if_true,
          strcmp_data_eq_zero_iff, hm, if_false]
    · cases hstack : h.GetStackTrace thread with
      | none =>
        left
        simp only [SampledObjectAlloc, hsig, is_allocs_empty_iff, hpath, if_false, hstack]
      | some stack =>
        cases hb : (allocation_record h class_sig size thread (stack.take MAX_FRAMES) s).1 with
        | none =>
          right; right; right; right
          exact SampledObjectAlloc_throws h thread object object_klass size s class_sig stack
            hsig hpath hstack hb
        | some r =>
          by_cases hc : s.agent_state = allocation_tracing_stopping
              ∧ class_sig = allocation_finish_marker
          · right; right; right; left
            obtain ⟨hc1, hc2⟩ := hc
            subst hc2
            exact ⟨stack, r, rfl, rfl, hc1, hb,
              SampledObjectAlloc_record_stop h thread object object_klass size s _ stack r
                hsig hstack hb ⟨hc1, rfl⟩⟩
          · right; right; left
            exact ⟨class_sig, stack, r, rfl, hpath, rfl, hc, hb,
              SampledObjectAlloc_record h thread object object_klass size s _ stack r
                hsig hpath hstack hb hc⟩

/-- Two events whose record cannot be constructed, in state `active`: with
a method name unresolved, and with no frame captured and a stale frame array.
Each leaves the store and the host calls as they were and consumes the
tag. -/
theorem SampledObjectAlloc_unresolved :
    (nameless_host.GetStackTrace 7).map (names_resolve nameless_host) = some false
    ∧ (SampledObjectAlloc nameless_host 7 102 3 24
        (run init [demo_start, demo_alloc_start_marker])).allocs = []
    ∧ (SampledObjectAlloc nameless_host 7 102 3 24
        (run init [demo_start, demo_alloc_start_marker])).host_calls = []
    ∧ (SampledObjectAlloc nameless_host 7 102 3 24
        (run init [demo_start, demo_alloc_start_marker])).next_object_tag = 1
    ∧ (frameless_host.GetStackTrace 7).map (names_resolve frameless_host) = some false
    ∧ (SampledObjectAlloc frameless_host 7 102 3 24
        (run init [demo_start, demo_alloc_start_marker])).allocs = []
    ∧ (SampledObjectAlloc frameless_host 7 102 3 24
        (run init [demo_start, demo_alloc_start_marker])).next_object_tag = 1 := by
  refine ⟨rfl, rfl, rfl, rfl, rfl, rfl, rfl⟩

/-! ## The start marker -/

/-- C1: in state `starting`, for an event whose type name resolves, the state
becomes `active` exactly when the record sequence is empty and the type is the
start marker; then no record is inserted (the sequence stays empty, the tag
index is untouched); with a record in the store the state stays `starting`. -/
theorem SampledObjectAlloc_starting (h : Host) (thread : jthread) (object : jobject)
    (object_klass : jclass) (size : Int) (s : State) (class_sig : String)
    (hstate : s.agent_state = allocation_tracing_starting)
    (hsig : h.GetClassSignature object_klass = some class_sig) :
    ((SampledObjectAlloc h thread object object_klass size s).agent_state
          = allocation_tracing_active
        ↔ (s.allocs = [] ∧ class_sig = allocation_start_marker))
    ∧ (s.allocs = [] ∧ class_sig = allocation_start_marker →
        (SampledObjectAlloc h thread object object_klass size s).allocs = []
        ∧ (SampledObjectAlloc h thread object object_klass size s).allocs_by_tag
            = s.allocs_by_tag)
    ∧ (s.allocs ≠ [] →
        (SampledObjectAlloc h thread object object_klass size s).agent_state
          = allocation_tracing_starting) := by
  have h1 : allocation_tracing_starting ≠ allocation_tracing_active := by decide
  have h2 : allocation_tracing_starting ≠ allocation_tracing_stopping := by decide
  by_cases he : s.allocs = []
  · unfold SampledObjectAlloc
    rw [hsig]
    simp only [is_allocs_empty_iff, strcmp_data_eq_zero_iff, hstate, and_true]
    by_cases hm : class_sig = allocation_start_marker
    · simp [he, hm, set_state_env, set_state]
    · simp [he, hm, hstate, h1]
  · have hkeep : (SampledObjectAlloc h thread object object_klass size s).agent_state
        = allocation_tracing_starting := by
      rcases SampledObjectAlloc_cases h thread object object_klass size s with
        c | ⟨he2, _, _, _⟩ | ⟨_, _, _, _, _, _, _, _, c⟩ | ⟨_, _, _, _, hst, _, _⟩ | c
      · rw [c]; exact hstate
      · exact absurd he2 he
      · rw [c]; exact hstate
      · rw [hstate] at hst; exact absurd hst h2
      · rw [c]; exact hstate
    refine ⟨⟨fun hact => ?_, fun hc => absurd hc.1 he⟩, fun hc => absurd hc.1 he,
      fun _ => hkeep⟩
    rw [hkeep] at hact
    exact absurd hact h1

/-- C1, an instance: after the start command, the start marker moves the engine
to `active`. -/
theorem SampledObjectAlloc_starting_witness :
    (enable_allocation_tracing init).agent_state = allocation_tracing_starting
    ∧ demo_host.GetClassSignature 1 = some allocation_start_marker
    ∧ (SampledObjectAlloc demo_host 7 100 1 0 (enable_allocation_tracing init)).agent_state
        = allocation_tracing_active :=
  ⟨rfl, rfl,
    (SampledObjectAlloc_starting demo_host 7 100 1 0 (enable_allocation_tracing init)
      allocation_start_marker rfl rfl).1.mpr ⟨rfl, rfl⟩⟩

theorem untag_loop_eq (objects : List jobject) (s : State) :
    untag_loop objects s
      = { s with host_calls := s.host_calls ++ objects.map (fun o => HostCall.SetTag o 0) } := by
  induction objects generalizing s with
  | nil => simp [untag_loop]
  | cons o rest ih => simp [untag_loop, ih, SetTag]

theorem untag_objects_fields (h : Host) (s : State) :
    (untag_objects h s).allocs = s.allocs
    ∧ (untag_objects h s).allocs_by_tag = []
    ∧ (untag_objects h s).next_object_tag = s.next_object_tag
    ∧ (untag_objects h s).agent_state = s.agent_state := by
  by_cases hl : (all_tags s.allocs).length > 0 <;>
    simp [untag_objects, untag_loop_eq, hl]

theorem allocation_tracing_report_fields (h : Host) (s : State) :
    (allocation_tracing_report h s).1.allocs = []
    ∧ (allocation_tracing_report h s).1.allocs_by_tag = []
    ∧ (allocation_tracing_report h s).1.next_object_tag = s.next_object_tag
    ∧ (allocation_tracing_report h s).1.agent_state = s.agent_state := by
  have hu := untag_objects_fields h s
  exact ⟨rfl, rfl, hu.2.2.1, hu.2.2.2⟩

/-- The ways `Agent_command` can end. -/
theorem Agent_command_cases (h : Host) (cmd : Int) (s : State) :
    (Agent_command h cmd s).1 = s
    ∨ (Agent_command h cmd s).1 = set_state_env s.agent_state s
    ∨ (cmd = start_allocation_tracing
        ∧ (Agent_command h cmd s).1 = enable_allocation_tracing s)
    ∨ (cmd = stop_allocation_tracing
        ∧ (Agent_command h cmd s).1 = disable_allocation_tracing s)
    ∨ (cmd = report_allocation_tracing
        ∧ (Agent_command h cmd s).1 = (allocation_tracing_report h s).1) := by
  unfold Agent_command
  by_cases h1 : ping = cmd
  · left; rw [if_pos h1]
  · by_cases h2 : sync_state = cmd
    · right; left; rw [if_neg h1, if_pos h2]
    · by_cases h3 : start_allocation_tracing = cmd
      · right; right; left; rw [if_neg h1, if_neg h2, if_pos h3]; exact ⟨h3.symm, rfl⟩
      · by_cases h4 : stop_allocation_tracing = cmd
        · right; right; right; left
          rw [if_neg h1, if_neg h2, if_neg h3, if_pos h4]; exact ⟨h4.symm, rfl⟩
        · by_cases h5 : report_allocation_tracing = cmd
          · right; right; right; right
            rw [if_neg h1, if_neg h2, if_neg h3, if_neg h4, if_pos h5]; exact ⟨h5.symm, rfl⟩
          · left; rw [if_neg h1, if_neg h2, if_neg h3, if_neg h4, if_neg h5]

/-- A command that does not clear the store leaves the record sequence, the
tag index and the counter alone. -/
theorem Agent_command_keeps (h : Host) (cmd : Int) (s : State)
    (hk : ¬ clears_store (Input.command h cmd)) :
    (Agent_command h cmd s).1.allocs = s.allocs
    ∧ (Agent_command h cmd s).1.allocs_by_tag = s.allocs_by_tag
    ∧ (Agent_command h cmd s).1.next_object_tag = s.next_object_tag := by
  simp only [clears_store, not_or] at hk
  rcases Agent_command_cases h cmd s with e | e | ⟨c, _⟩ | ⟨_, e⟩ | ⟨c, _⟩
  · rw [e]; exact ⟨rfl, rfl, rfl⟩
  · rw [e]; exact ⟨rfl, rfl, rfl⟩
  · exact absurd c hk.1
  · rw [e]; exact ⟨rfl, rfl, rfl⟩
  · exact absurd c hk.2

/-! ## The stop marker -/

theorem ObjectFree_absent (tag : Int) (s : State)
    (hm : map_at s.allocs_by_tag tag = none) : ObjectFree tag s = s := by
  simp only [ObjectFree, hm]

theorem ObjectFree_dangling (tag : Int) (s : State) (p : Nat)
    (hm : map_at s.allocs_by_tag tag = some p) (hr : s.allocs[p]? = none) :
    ObjectFree tag s = s := by
  simp only [ObjectFree, hm, hr]

theorem ObjectFree_found (tag : Int) (s : State) (p : Nat) (r : alloc_rec)
    (hm : map_at s.allocs_by_tag tag = some p) (hr : s.allocs[p]? = some r)
    (hc : ¬ (s.agent_state = allocation_tracing_flushing ∧ r.disable_marker = true)) :
    ObjectFree tag s = { s with allocs := s.allocs.set p { r with freed := 1 } } := by
  simp only [ObjectFree, hm, hr, hc, if_false]

theorem ObjectFree_found_marker (tag : Int) (s : State) (p : Nat) (r : alloc_rec)
    (hm : map_at s.allocs_by_tag tag = some p) (hr : s.allocs[p]? = some r)
    (hc : s.agent_state = allocation_tracing_flushing ∧ r.disable_marker = true) :
    ObjectFree tag s =
      { s with
        allocs := s.allocs.set p { r with freed := 1 }
        object_free_enabled := false
        agent_state := allocation_tracing_flushed } := by
  simp only [ObjectFree, hm, hr, hc, and_self, if_true, set_state]

/-- C5, the claim refuted: after the whole session of the example, the free
event of the stop marker included, the state is `flushed` with free
notifications disabled; a free event for tag 99, for which the index holds no
record, leaves it so, although the state before the call was not
`flushing`. -/
theorem ObjectFree_already_flushed :
    (run init (demo_session ++ [Input.free 1])).agent_state = allocation_tracing_flushed
    ∧ map_at (run init (demo_session ++ [Input.free 1])).allocs_by_tag 99 = none
    ∧ (ObjectFree 99 (run init (demo_session ++ [Input.free 1]))).agent_state
        = allocation_tracing_flushed
    ∧ (ObjectFree 99 (run init (demo_session ++ [Input.free 1]))).object_free_enabled = false
    ∧ ¬ (∃ p r, map_at (run init (demo_session ++ [Input.free 1])).allocs_by_tag 99 = some p
        ∧ (run init (demo_session ++ [Input.free 1])).allocs[p]? = some r
        ∧ r.disable_marker = true
        ∧ (run init (demo_session ++ [Input.free 1])).agent_state
            = allocation_tracing_flushing) := by
  refine ⟨rfl, rfl, rfl, rfl, ?_⟩
  rintro ⟨p, r, hp, _, _, _⟩
  have h0 : map_at (run init (demo_session ++ [Input.free 1])).allocs_by_tag 99 = none := rfl
  rw [h0] at hp
  exact Option.noConfusion hp

/-- C5, amended: `ObjectFree` makes the transition to `flushed` and disables free
notifications exactly when the tag index holds a record for the tag, the
record has `disable_marker` set and the state was `flushing`.  When it does,
the state afterwards is `flushed` with free notifications disabled; in every
other case (a tag without record included) the tracing state and both
notification modes are what they were.  Hence, whenever free notifications
are enabled before the call (the host delivers free events only then) or the
state before is not yet `flushed`, the state afterwards is `flushed` with free
notifications disabled if and only if the condition held. -/
theorem ObjectFree_flushed (tag : Int) (s : State) :
    ((∃ p r, map_at s.allocs_by_tag tag = some p ∧ s.allocs[p]? = some r
          ∧ r.disable_marker = true ∧ s.agent_state = allocation_tracing_flushing) →
        (ObjectFree tag s).agent_state = allocation_tracing_flushed
        ∧ (ObjectFree tag s).object_free_enabled = false
        ∧ (ObjectFree tag s).sampled_object_alloc_enabled = s.sampled_object_alloc_enabled)
    ∧ (¬ (∃ p r, map_at s.allocs_by_tag tag = some p ∧ s.allocs[p]? = some r
          ∧ r.disable_marker = true ∧ s.agent_state = allocation_tracing_flushing) →
        (ObjectFree tag s).agent_state = s.agent_state
        ∧ (ObjectFree tag s).object_free_enabled = s.object_free_enabled
        ∧ (ObjectFree tag s).sampled_object_alloc_enabled = s.sampled_object_alloc_enabled)
    ∧ ((s.agent_state ≠ allocation_tracing_flushed ∨ s.object_free_enabled = true) →
        (((ObjectFree tag s).agent_state = allocation_tracing_flushed
            ∧ (ObjectFree tag s).object_free_enabled = false)
          ↔ (∃ p r, map_at s.allocs_by_tag tag = some p ∧ s.allocs[p]? = some r
              ∧ r.disable_marker = true ∧ s.agent_state = allocation_tracing_flushing))) := by
  have key : (∃ p r, map_at s.allocs_by_tag tag = some p ∧ s.allocs[p]? = some r
        ∧ r.disable_marker = true ∧ s.agent_state = allocation_tracing_flushing) →
      (ObjectFree tag s).agent_state = allocation_tracing_flushed
        ∧ (ObjectFree tag s).object_free_enabled = false
        ∧ (ObjectFree tag s).sampled_object_alloc_enabled
            = s.sampled_object_alloc_enabled := by
    rintro ⟨p, r, hm, hr, hd, hs⟩
    rw [ObjectFree_found_marker tag s p r hm hr ⟨hs, hd⟩]
    exact ⟨rfl, rfl, rfl⟩
  have other : ¬ (∃ p r, map_at s.allocs_by_tag tag = some p ∧ s.allocs[p]? = some r
        ∧ r.disable_marker = true ∧ s.agent_state = allocation_tracing_flushing) →
      (ObjectFree tag s).agent_state = s.agent_state
        ∧ (ObjectFree tag s).object_free_enabled = s.object_free_enabled
        ∧ (ObjectFree tag s).sampled_object_alloc_enabled
            = s.sampled_object_alloc_enabled := by
    intro hn
    cases hm : map_at s.allocs_by_tag tag with
    | none => rw [ObjectFree_absent tag s hm]; exact ⟨rfl, rfl, rfl⟩
    | some p =>
      cases hr : s.allocs[p]? with
      | none => rw [ObjectFree_dangling tag s p hm hr]; exact ⟨rfl, rfl, rfl⟩
      | some r =>
        have hc : ¬ (s.agent_state = allocation_tracing_flushing
            ∧ r.disable_marker = true) :=
          fun hc => hn ⟨p, r, hm, hr, hc.2, hc.1⟩
        rw [ObjectFree_found tag s p r hm hr hc]
        exact ⟨rfl, rfl, rfl⟩
  refine ⟨key, other, fun hne => ⟨fun hpost => ?_, fun hc => ⟨(key hc).1, (key hc).2.1⟩⟩⟩
  by_contra hn
  rcases hne with hne | hen
  · exact hne ((other hn).1 ▸ hpost.1)
  · have h2 := (other hn).2.1
    rw [hpost.2, hen] at h2
    exact Bool.noConfusion h2

/-- C5 amended, an instance: after a session up to the stop marker, the free event of
the marker (tag 1) brings the engine to `flushed`; the free event of the other
record (tag 0) leaves it in `flushing`. -/
theorem ObjectFree_flushed_witness :
    (∃ p r, map_at (run init demo_session).allocs_by_tag 1 = some p
        ∧ (run init demo_session).allocs[p]? = some r
        ∧ r.disable_marker = true
        ∧ (run init demo_session).agent_state = allocation_tracing_flushing)
    ∧ (ObjectFree 1 (run init demo_session)).agent_state = allocation_tracing_flushed
    ∧ (ObjectFree 1 (run init demo_session)).object_free_enabled = false
    ∧ (ObjectFree 0 (run init demo_session)).agent_state = allocation_tracing_flushing :=
  ⟨⟨1, _, rfl, rfl, rfl, rfl⟩,
    (((ObjectFree_flushed 1 (run init demo_session)).2.2 (Or.inr rfl)).2
      ⟨1, _, rfl, rfl, rfl, rfl⟩).1,
    ((ObjectFree_flushed 1 (run init demo_session)).1 ⟨1, _, rfl, rfl, rfl, rfl⟩).2.1,
    ((ObjectFree_flushed 0 (run init demo_session)).2.1 (by
      rintro ⟨p, r, hp, hr, hd, _⟩
      have hp1 : p = 0 := by
        have : map_at (run init demo_session).allocs_by_tag 0 = some 0 := rfl
        rw [this] at hp
        exact (Option.some.inj hp).symm
      subst hp1
      have : (run init demo_session).allocs[0]? = some r := hr
      have h2 : ((run init demo_session).allocs[0]?).map (fun x => x.disable_marker)
          = some false := rfl
      rw [this] at h2
      simp at h2
      rw [h2] at hd
      exact absurd hd (by decide))).1⟩

/-! ## Drain -/

theorem report_loop_eq_map (allocs : List alloc_rec) :
    report_loop allocs = allocs.map NewObject := by
  induction allocs with
  | nil => rfl
  | cons a rest ih => simp [report_loop, ih]

theorem allocation_tracing_report_emitted (h : Host) (s : State) :
    (allocation_tracing_report h s).2 = s.allocs.map NewObject := by
  simp only [allocation_tracing_report, report_loop_eq_map]

/-- C7: `allocation_tracing_report` emits one representation per record, the
i-th from the i-th record, with the fields in the order object type, object
size, calling-site type, method, file, line, allocation-site type, method,
file, line, thread id, freed flag; afterwards the record sequence and the tag
index are empty and `is_allocs_empty` holds. -/
theorem allocation_tracing_report_emits (h : Host) (s : State) :
    (allocation_tracing_report h s).2
        = s.allocs.map (fun r =>
            (r.obj_class, r.obj_size,
              r.call_class, r.call_method, r.call_file, r.call_line,
              r.alloc_class, r.alloc_method, r.alloc_file, r.alloc_line,
              r.thread_id, r.freed))
    ∧ (allocation_tracing_report h s).2.length = s.allocs.length
    ∧ (allocation_tracing_report h s).1.allocs = []
    ∧ (allocation_tracing_report h s).1.allocs_by_tag = []
    ∧ is_allocs_empty (allocation_tracing_report h s).1 = true := by
  refine ⟨?_, ?_, rfl, rfl, rfl⟩
  · rw [allocation_tracing_report_emitted]
    rfl
  · rw [allocation_tracing_report_emitted, List.length_map]

/-! ## The calling frame -/

theorem strncmp_eq_zero_iff (p a : List Char) : strncmp a p p.length = 0 ↔ p <+: a := by
  induction p generalizing a with
  | nil => simp [strncmp]
  | cons y ys ih =>
    cases a with
    | nil => simp [strncmp]
    | cons x xs =>
      simp only [List.length_cons, strncmp, List.cons_prefix_cons]
      split
      · simp [*, ih]
      · rename_i hxy
        have hyx : ¬ y = x := fun e => hxy e.symm
        split <;> simp [hyx]

theorem calling_frame_accepts_iff (name : String) :
    calling_frame_accepts name = true ↔ ¬ is_infrastructure name := by
  have e1 := strncmp_eq_zero_iff "Ljava/".data name.data
  have e2 := strncmp_eq_zero_iff "Lcom/sun/".data name.data
  have e3 := strncmp_eq_zero_iff "Ljdk/".data name.data
  have e4 := strncmp_eq_zero_iff "Ljavax/".data name.data
  have e5 := strncmp_eq_zero_iff "Lsun/management".data name.data
  have e6 := strncmp_eq_zero_iff "Lclojure/".data name.data
  have l1 : "Ljava/".data.length = 6 := rfl
  have l2 : "Lcom/sun/".data.length = 9 := rfl
  have l3 : "Ljdk/".data.length = 5 := rfl
  have l4 : "Ljavax/".data.length = 7 := rfl
  have l5 : "Lsun/management".data.length = 15 := rfl
  have l6 : "Lclojure/".data.length = 9 := rfl
  rw [l1] at e1
  rw [l2] at e2
  rw [l3] at e3
  rw [l4] at e4
  rw [l5] at e5
  rw [l6] at e6
  simp only [calling_frame_accepts, Bool.and_eq_true, bne_iff_ne, ne_eq, e1, e2, e3, e4, e5, e6,
    is_infrastructure, infrastructure_names, List.mem_cons, List.mem_singleton,
    exists_eq_or_imp, exists_eq_left, List.not_mem_nil, false_and, exists_false, or_false,
    not_or, and_assoc]

/-- The loop of `calling_frame`, on frames whose declaring-type names all
resolve: it either runs through all frames, every one of them infrastructure,
or stops at the first frame that is not. -/
theorem calling_frame_loop_spec (h : Host) (frames : List jvmtiFrameInfo) (k : Nat)
    (cn : Option String)
    (hres : ∀ f ∈ frames, ∃ name, declaring_type_name h f = some name) :
    ((calling_frame_loop h frames k cn).1 = k + frames.length
        ∧ ∀ f ∈ frames, ∀ name, declaring_type_name h f = some name → is_infrastructure name)
    ∨ (∃ j f name, (calling_frame_loop h frames k cn).1 = k + j
        ∧ frames[j]? = some f ∧ declaring_type_name h f = some name
        ∧ ¬ is_infrastructure name
        ∧ ∀ i g n, i < j → frames[i]? = some g → declaring_type_name h g = some n →
            is_infrastructure n) := by
  induction frames generalizing k cn with
  | nil => left; simp [calling_frame_loop]
  | cons f rest ih =>
    obtain ⟨name, hname⟩ := hres f (List.mem_cons_self f rest)
    have hrest : ∀ g ∈ rest, ∃ n, declaring_type_name h g = some n :=
      fun g hg => hres g (List.mem_cons_of_mem f hg)
    have hname2 := hname
    unfold declaring_type_name at hname2
    cases hc : h.GetMethodDeclaringClass f.method with
    | none => rw [hc] at hname2; simp at hname2
    | some c =>
      rw [hc] at hname2
      simp only [Option.some_bind] at hname2
      by_cases hacc : calling_frame_accepts name = true
      · right
        refine ⟨0, f, name, ?_, by simp, hname, (calling_frame_accepts_iff name).1 hacc, ?_⟩
        · simp [calling_frame_loop, hc, hname2, hacc]
        · intro i g n hi
          exact absurd hi (Nat.not_lt_zero i)
      · have hinf : is_infrastructure name := by
          by_contra hn
          exact hacc ((calling_frame_accepts_iff name).2 hn)
        have hloop : calling_frame_loop h (f :: rest) k cn
            = calling_frame_loop h rest (k + 1) (some name) := by
          simp [calling_frame_loop, hc, hname2, hacc]
        rw [hloop]
        rcases ih (k + 1) (some name) hrest with ⟨hlen, hall⟩ | ⟨j, g, n, hj, hg, hn, hni, hbefore⟩
        · left
          refine ⟨by rw [hlen, List.length_cons]; omega, ?_⟩
          intro g hg n hn
          rcases List.mem_cons.1 hg with rfl | hg
          · rw [hname] at hn
            exact (Option.some.inj hn) ▸ hinf
          · exact hall g hg n hn
        · right
          refine ⟨j + 1, g, n, by rw [hj]; omega, by simpa using hg, hn, hni, ?_⟩
          intro i g2 n2 hi hg2 hn2
          cases i with
          | zero =>
            simp only [List.getElem?_cons_zero, Option.some.injEq] at hg2
            subst hg2
            rw [hname] at hn2
            exact (Option.some.inj hn2) ▸ hinf
          | succ i =>
            simp only [List.getElem?_cons_succ] at hg2
            exact hbefore i g2 n2 (by omega) hg2 hn2

/-- C8: for a non-empty stack whose declaring-type names all resolve,
`calling_frame` returns an index below the number of frames; when some frame is
not infrastructure it is the least index of such a frame, and when every frame
is infrastructure it is 0. -/
theorem calling_frame_least (h : Host) (frames : List jvmtiFrameInfo)
    (hne : frames ≠ [])
    (hres : ∀ f ∈ frames, ∃ name, declaring_type_name h f = some name) :
    (calling_frame h frames).1 < frames.length
    ∧ ((∃ f ∈ frames, ∃ name, declaring_type_name h f = some name
          ∧ ¬ is_infrastructure name) →
        (∃ f name, frames[(calling_frame h frames).1]? = some f
          ∧ declaring_type_name h f = some name ∧ ¬ is_infrastructure name)
        ∧ (∀ j f name, j < (calling_frame h frames).1 → frames[j]? = some f →
            declaring_type_name h f = some name → is_infrastructure name))
    ∧ ((∀ f ∈ frames, ∀ name, declaring_type_name h f = some name →
          is_infrastructure name) →
        (calling_frame h frames).1 = 0) := by
  have hpos : 0 < frames.length := List.length_pos.2 hne
  rcases calling_frame_loop_spec h frames 0 none hres with
    ⟨hlen, hall⟩ | ⟨j, f, name, hj, hf, hn, hni, hbefore⟩
  · have hcf : (calling_frame h frames).1 = 0 := by
      simp [calling_frame, hlen]
    refine ⟨by rw [hcf]; exact hpos, ?_, fun _ => hcf⟩
    rintro ⟨f, hf, name, hn, hni⟩
    exact absurd (hall f hf name hn) hni
  · have hjlt : j < frames.length := by
      by_contra hge
      rw [List.getElem?_eq_none (by omega)] at hf
      exact Option.noConfusion hf
    have hcf : (calling_frame h frames).1 = j := by
      simp only [calling_frame, hj, Nat.zero_add, ge_iff_le]
      rw [if_neg (by omega)]
      exact hj.trans (Nat.zero_add j)
    rw [hcf]
    refine ⟨hjlt, fun _ => ⟨⟨f, name, hf, hn, hni⟩, hbefore⟩, fun hall => ?_⟩
    exact absurd (hall f (List.getElem?_mem hf) name hn) hni

/-- C8, an instance: on a stack with two platform frames above an application
frame, the calling frame is below the number of frames, is not infrastructure,
and the frames before it are. -/
theorem calling_frame_least_witness :
    demo_deep_stack ≠ []
    ∧ (∀ f ∈ demo_deep_stack, ∃ name, declaring_type_name demo_host f = some name)
    ∧ (∃ f ∈ demo_deep_stack, ∃ name, declaring_type_name demo_host f = some name
        ∧ ¬ is_infrastructure name)
    ∧ (calling_frame demo_host demo_deep_stack).1 < demo_deep_stack.length
    ∧ (∃ f name, demo_deep_stack[(calling_frame demo_host demo_deep_stack).1]? = some f
        ∧ declaring_type_name demo_host f = some name ∧ ¬ is_infrastructure name) := by
  have hne : demo_deep_stack ≠ [] := by decide
  have hres : ∀ f ∈ demo_deep_stack, ∃ name, declaring_type_name demo_host f = some name := by
    intro f hf
    simp only [demo_deep_stack, List.mem_cons, List.mem_singleton, List.not_mem_nil,
      or_false] at hf
    rcases hf with rfl | rfl | rfl
    · exact ⟨_, rfl⟩
    · exact ⟨_, rfl⟩
    · exact ⟨_, rfl⟩
  have hsome : ∃ f ∈ demo_deep_stack, ∃ name, declaring_type_name demo_host f = some name
      ∧ ¬ is_infrastructure name := by
    refine ⟨{ method := 3, location := 30 }, by decide, "Lapp/Main;", rfl, ?_⟩
    rw [← calling_frame_accepts_iff]
    rfl
  exact ⟨hne, hres, hsome, (calling_frame_least demo_host demo_deep_stack hne hres).1,
    ((calling_frame_least demo_host demo_deep_stack hne hres).2.1 hsome).1⟩

/-! ## Line numbers -/

/-- The scan of `frame_detail` over a table ordered by start offset, entered
with an entry `cur` that starts at or before the location: the line reported
is that of the last entry of `cur :: rest` starting at or before the
location. -/
theorem line_scan_sorted (location : Int) (rest : List jvmtiLineNumberEntry)
    (cur : jvmtiLineNumberEntry)
    (hcur : cur.start_location ≤ location)
    (hsorted : (cur :: rest).Pairwise (fun a b => a.start_location ≤ b.start_location)) :
    ∃ (i : Nat) (e : jvmtiLineNumberEntry), (cur :: rest)[i]? = some e ∧ e.start_location ≤ location
      ∧ (∀ (j : Nat) (e2 : jvmtiLineNumberEntry), (cur :: rest)[j]? = some e2 → e2.start_location ≤ location → j ≤ i)
      ∧ line_scan location rest cur.line_number = e.line_number := by
  induction rest generalizing cur with
  | nil =>
    refine ⟨0, cur, by simp, hcur, ?_, rfl⟩
    intro j e2 hj _
    cases j with
    | zero => exact Nat.le_refl 0
    | succ j => simp at hj
  | cons e1 rest ih =>
    have hs := List.pairwise_cons.1 hsorted
    by_cases hlt : location < e1.start_location
    · refine ⟨0, cur, by simp, hcur, ?_, by simp [line_scan, hlt]⟩
      intro j e2 hj he2
      cases j with
      | zero => exact Nat.le_refl 0
      | succ j =>
        simp only [List.getElem?_cons_succ] at hj
        have hmem : e2 ∈ e1 :: rest := List.getElem?_mem hj
        have h1 : e1.start_location ≤ e2.start_location := by
          rcases List.mem_cons.1 hmem with rfl | hm
          · exact le_refl _
          · exact (List.pairwise_cons.1 hs.2).1 e2 hm
        omega
    · obtain ⟨i, e, hi, he, hmax, hline⟩ := ih e1 (by omega) hs.2
      refine ⟨i + 1, e, by simpa using hi, he, ?_, by simp [line_scan, hlt, hline]⟩
      intro j e2 hj he2
      cases j with
      | zero => omega
      | succ j =>
        simp only [List.getElem?_cons_succ] at hj
        have := hmax j e2 hj he2
        omega

/-- C9, the claim refuted: on the table `(0, 1), (10, 2), (5, 3)` and
location 7 the entry with the highest start offset not beyond the location is
`(5, 3)`, and `frame_detail` reports line 1: the line reported is the line of
no entry with the highest start offset among those not beyond the location. -/
theorem frame_detail_line_unsorted :
    unsorted_host.GetLineNumberTable 1
        = some [{ start_location := 0, line_number := 1 },
            { start_location := 10, line_number := 2 },
            { start_location := 5, line_number := 3 }]
    ∧ (frame_detail unsorted_host { method := 1, location := 7 }).2.2.2 = 1
    ∧ ¬ ∃ e ∈ ([{ start_location := 0, line_number := 1 },
            { start_location := 10, line_number := 2 },
            { start_location := 5, line_number := 3 }] : List jvmtiLineNumberEntry),
          e.start_location ≤ 7
          ∧ (∀ e2 ∈ ([{ start_location := 0, line_number := 1 },
              { start_location := 10, line_number := 2 },
              { start_location := 5, line_number := 3 }] : List jvmtiLineNumberEntry),
              e2.start_location ≤ 7 → e2.start_location ≤ e.start_location)
          ∧ (frame_detail unsorted_host { method := 1, location := 7 }).2.2.2
              = e.line_number := by
  refine ⟨rfl, rfl, ?_⟩
  decide

/-- C9, amended: when the host supplies no line table the line is -1; for a
table ordered by start offset in which some entry starts at or before the
frame's location, the line reported is the line of the last such entry of the
table, which has the highest start offset among them. -/
theorem frame_detail_line (h : Host) (frame : jvmtiFrameInfo) :
    (h.GetLineNumberTable frame.method = none → (frame_detail h frame).2.2.2 = -1)
    ∧ (∀ table, h.GetLineNumberTable frame.method = some table →
        table.Pairwise (fun a b => a.start_location ≤ b.start_location) →
        (∃ e ∈ table, e.start_location ≤ frame.location) →
        ∃ (i : Nat) (e : jvmtiLineNumberEntry), table[i]? = some e ∧ e.start_location ≤ frame.location
          ∧ (∀ (j : Nat) (e2 : jvmtiLineNumberEntry), table[j]? = some e2 → e2.start_location ≤ frame.location →
              j ≤ i ∧ e2.start_location ≤ e.start_location)
          ∧ (frame_detail h frame).2.2.2 = e.line_number) := by
  constructor
  · intro hnone
    simp [frame_detail, hnone]
  · intro table htab hsorted hq
    cases table with
    | nil => simp at hq
    | cons e0 rest =>
      have hs := List.pairwise_cons.1 hsorted
      have h0 : e0.start_location ≤ frame.location := by
        obtain ⟨e, hmem, he⟩ := hq
        rcases List.mem_cons.1 hmem with rfl | hm
        · exact he
        · exact le_trans (hs.1 e hm) he
      obtain ⟨i, e, hi, he, hmax, hline⟩ := line_scan_sorted frame.location rest e0 h0 hsorted
      refine ⟨i, e, hi, he, ?_, by simp [frame_detail, htab, hline]⟩
      intro j e2 hj he2
      have hji := hmax j e2 hj he2
      refine ⟨hji, ?_⟩
      rcases Nat.lt_or_eq_of_le hji with hlt | heq
      · have hjl : j < (e0 :: rest).length := by
          by_contra hge
          rw [List.getElem?_eq_none (by omega)] at hj
          exact Option.noConfusion hj
        have hil : i < (e0 :: rest).length := by
          by_contra hge
          rw [List.getElem?_eq_none (by omega)] at hi
          exact Option.noConfusion hi
        have hp := (List.pairwise_iff_getElem.1 hsorted) j i hjl hil hlt
        rw [List.getElem?_eq_getElem hjl] at hj
        rw [List.getElem?_eq_getElem hil] at hi
        rw [Option.some.inj hj, Option.some.inj hi] at hp
        exact hp
      · subst heq
        rw [hi] at hj
        rw [Option.some.inj hj]

/-- C9 amended, an instance: method 3 of the example host has the table
`(0, 20), (16, 22), (40, 25)`; at location 30 the line is 22. -/
theorem frame_detail_line_witness :
    demo_host.GetLineNumberTable 3
        = some [{ start_location := 0, line_number := 20 },
            { start_location := 16, line_number := 22 },
            { start_location := 40, line_number := 25 }]
    ∧ ([{ start_location := 0, line_number := 20 },
            { start_location := 16, line_number := 22 },
            { start_location := 40, line_number := 25 }] : List jvmtiLineNumberEntry).Pairwise
          (fun a b => a.start_location ≤ b.start_location)
    ∧ (∃ e ∈ ([{ start_location := 0, line_number := 20 },
            { start_location := 16, line_number := 22 },
            { start_location := 40, line_number := 25 }] : List jvmtiLineNumberEntry),
          e.start_location ≤ 30)
    ∧ (∃ (i : Nat) (e : jvmtiLineNumberEntry), ([{ start_location := 0, line_number := 20 },
            { start_location := 16, line_number := 22 },
            { start_location := 40, line_number := 25 }] : List jvmtiLineNumberEntry)[i]?
            = some e
          ∧ e.start_location ≤ 30
          ∧ (frame_detail demo_host { method := 3, location := 30 }).2.2.2 = e.line_number) :=
  ⟨rfl, by decide, by decide,
    ((frame_detail_line demo_host { method := 3, location := 30 }).2 _ rfl
        (by decide) (by decide)).elim
      (fun i hi => hi.elim (fun e he => ⟨i, e, he.1, he.2.1, he.2.2.2⟩))⟩

/-! ## Events of unmarked types -/

theorem run_append (s : State) (a b : List Input) :
    run s (a ++ b) = run (run s a) b := by
  induction a generalizing s with
  | nil => rfl
  | cons i rest ih => exact ih (step s i)

/-- C2, the claim refuted: right after the start command (state `starting`,
empty store) a sampled allocation of `LFoo;`, whose type name and stack
resolve and which is neither marker, inserts no record. -/
theorem SampledObjectAlloc_unmarked_dropped :
    (enable_allocation_tracing init).agent_state = allocation_tracing_starting
    ∧ (enable_allocation_tracing init).allocs = []
    ∧ demo_host.GetClassSignature 3 = some "LFoo;"
    ∧ "LFoo;" ≠ allocation_start_marker
    ∧ "LFoo;" ≠ allocation_finish_marker
    ∧ (demo_host.GetStackTrace 7).isSome = true
    ∧ (run (enable_allocation_tracing init) [demo_alloc_foo]).allocs.length
        ≠ (enable_allocation_tracing init).allocs.length + 1 := by
  refine ⟨rfl, rfl, rfl, by decide, by decide, rfl, by decide⟩

/-- C2, amended: for a sequence of events whose type names and stacks resolve
(the type name, the captured stack, and the class and method names of the
allocation-site and calling-site frames) and whose types are neither marker,
handled from a state that is not "state `starting` with an empty record
sequence", the record sequence grows by one record per event, in arrival
order, each with the type, size and thread of its event, and the tracing state
does not change; from state `starting` with an empty record sequence every
such event is dropped and nothing changes. -/
theorem SampledObjectAlloc_unmarked (s : State) (evs : List SampledAlloc)
    (hplain : ∀ e ∈ evs, ∃ class_sig stack,
      e.host.GetClassSignature e.object_klass = some class_sig
      ∧ class_sig ≠ allocation_start_marker ∧ class_sig ≠ allocation_finish_marker
      ∧ e.host.GetStackTrace e.thread = some stack
      ∧ names_resolve e.host (stack.take MAX_FRAMES) = true) :
    (¬ (s.allocs = [] ∧ s.agent_state = allocation_tracing_starting) →
      ∃ recs : List alloc_rec,
        (run s (evs.map Input.alloc)).allocs = s.allocs ++ recs
        ∧ recs.length = evs.length
        ∧ List.Forall₂
            (fun (e : SampledAlloc) (r : alloc_rec) =>
              e.host.GetClassSignature e.object_klass = some r.obj_class
              ∧ r.obj_size = e.size
              ∧ r.thread_id = e.host.Thread_getId e.thread
              ∧ r.freed = 0 ∧ r.disable_marker = false)
            evs recs
        ∧ (run s (evs.map Input.alloc)).agent_state = s.agent_state)
    ∧ ((s.allocs = [] ∧ s.agent_state = allocation_tracing_starting) →
      run s (evs.map Input.alloc) = s) := by
  induction evs generalizing s with
  | nil =>
    exact ⟨fun _ => ⟨[], by simp [run], rfl, List.Forall₂.nil, rfl⟩, fun _ => rfl⟩
  | cons e rest ih =>
    obtain ⟨class_sig, stack, hsig, hns, hnf, hstack, hnames⟩ :=
      hplain e (List.mem_cons_self e rest)
    have hrest : ∀ e2 ∈ rest, ∃ class_sig stack,
        e2.host.GetClassSignature e2.object_klass = some class_sig
        ∧ class_sig ≠ allocation_start_marker ∧ class_sig ≠ allocation_finish_marker
        ∧ e2.host.GetStackTrace e2.thread = some stack
        ∧ names_resolve e2.host (stack.take MAX_FRAMES) = true :=
      fun e2 h2 => hplain e2 (List.mem_cons_of_mem e h2)
    constructor
    · intro hpath
      have hc : ¬ (s.agent_state = allocation_tracing_stopping
          ∧ class_sig = allocation_finish_marker) := fun hc => hnf hc.2
      obtain ⟨r, hb⟩ := allocation_record_of_names e.host class_sig e.size e.thread
        (stack.take MAX_FRAMES) s hnames
      obtain ⟨_, hfreed, hdm, hcls, hsize, htid⟩ :=
        allocation_record_built e.host class_sig e.size e.thread _ s r hb
      have hstep := SampledObjectAlloc_record e.host e.thread e.object e.object_klass e.size s
        class_sig stack r hsig hpath hstack hb hc
      have hpath2 : ¬ ((step s (Input.alloc e)).allocs = []
          ∧ (step s (Input.alloc e)).agent_state = allocation_tracing_starting) := by
        simp only [step, hstep]
        simp
      obtain ⟨recs, hrecs, hlen, hall, hst⟩ := (ih (step s (Input.alloc e)) hrest).1 hpath2
      refine ⟨r :: recs, ?_, ?_, ?_, ?_⟩
      · simp only [List.map_cons, run, hrecs]
        simp only [step, hstep]
        simp
      · simp [hlen]
      · exact List.Forall₂.cons ⟨by rw [hsig, hcls], hsize, htid, hfreed, hdm⟩ hall
      · simp only [List.map_cons, run, hst]
        simp only [step, hstep]
    · intro hpath
      have hstep : step s (Input.alloc e) = s := by
        simp only [step, SampledObjectAlloc, hsig, is_allocs_empty_iff, hpath, and_self,
          if_true, strcmp_data_eq_zero_iff, hns, if_false]
      simp only [List.map_cons, run, hstep]
      exact (ih s hrest).2 hpath

/-- C2 amended, an instance: in state `active` two events of unmarked types
add two records. -/
theorem SampledObjectAlloc_unmarked_witness :
    (∀ e ∈ [demo_foo_event, demo_main_event],
        ∃ class_sig stack,
          e.host.GetClassSignature e.object_klass = some class_sig
          ∧ class_sig ≠ allocation_start_marker ∧ class_sig ≠ allocation_finish_marker
          ∧ e.host.GetStackTrace e.thread = some stack
          ∧ names_resolve e.host (stack.take MAX_FRAMES) = true)
    ∧ ¬ ((run init [demo_start, demo_alloc_start_marker]).allocs = []
        ∧ (run init [demo_start, demo_alloc_start_marker]).agent_state
            = allocation_tracing_starting)
    ∧ (run (run init [demo_start, demo_alloc_start_marker])
          ([demo_foo_event, demo_main_event].map Input.alloc)).allocs.length = 2 := by
  have hplain : ∀ e ∈ [demo_foo_event, demo_main_event],
        ∃ class_sig stack,
          e.host.GetClassSignature e.object_klass = some class_sig
          ∧ class_sig ≠ allocation_start_marker ∧ class_sig ≠ allocation_finish_marker
          ∧ e.host.GetStackTrace e.thread = some stack
          ∧ names_resolve e.host (stack.take MAX_FRAMES) = true := by
    intro e he
    simp only [List.mem_cons, List.mem_singleton, List.not_mem_nil, or_false] at he
    rcases he with rfl | rfl
    · exact ⟨"LFoo;", _, rfl, by decide, by decide, rfl, rfl⟩
    · exact ⟨"Lapp/Main;", _, rfl, by decide, by decide, rfl, rfl⟩
  have hpath : ¬ ((run init [demo_start, demo_alloc_start_marker]).allocs = []
        ∧ (run init [demo_start, demo_alloc_start_marker]).agent_state
            = allocation_tracing_starting) := by
    decide
  refine ⟨hplain, hpath, ?_⟩
  obtain ⟨recs, hrecs, hlen, _, _⟩ :=
    (SampledObjectAlloc_unmarked (run init [demo_start, demo_alloc_start_marker]) _ hplain).1
      hpath
  have h0 : (run init [demo_start, demo_alloc_start_marker]).allocs = [] := rfl
  rw [h0, List.nil_append] at hrecs
  rw [hrecs, hlen]
  rfl

/-! ## Markers in the drained records -/

/-- C3, the claim refuted: after a whole session (start, start marker, a
`Foo`, stop, stop marker, the free event of the stop marker) the report emits
a record whose object type is the stop marker; and a start marker sampled
again once the state is `active` is recorded and emitted as well. -/
theorem allocation_tracing_report_emits_markers :
    (∃ a ∈ (allocation_tracing_report demo_host
          (run init (demo_session ++ [Input.free 1]))).2,
        a.1 = allocation_finish_marker)
    ∧ (∃ a ∈ (allocation_tracing_report demo_host
          (run init [demo_start, demo_alloc_start_marker, demo_alloc_start_marker])).2,
        a.1 = allocation_start_marker) := by
  constructor
  · exact ⟨_, List.mem_cons_of_mem _ (List.mem_cons_self _ _), rfl⟩
  · exact ⟨_, List.mem_cons_self _ _, rfl⟩

/-- While the engine waits for the start marker the store is empty, and no
record has the type of the start marker, as long as start markers arrive only
in state `starting`. -/
theorem start_marker_not_recorded (s : State) (inputs : List Input)
    (hempty : s.agent_state = allocation_tracing_starting → s.allocs = [])
    (hnone : ∀ r ∈ s.allocs, r.obj_class ≠ allocation_start_marker)
    (hdisc : start_marker_while_starting s inputs) :
    ∀ r ∈ (run s inputs).allocs, r.obj_class ≠ allocation_start_marker := by
  induction inputs generalizing s with
  | nil => exact hnone
  | cons i rest ih =>
    obtain ⟨hi, hrest⟩ := hdisc
    have h10 : allocation_tracing_stopping ≠ allocation_tracing_starting := by decide
    have h11 : allocation_tracing_flushing ≠ allocation_tracing_starting := by decide
    have h12 : allocation_tracing_flushed ≠ allocation_tracing_starting := by decide
    have h13 : allocation_tracing_active ≠ allocation_tracing_starting := by decide
    refine ih (step s i) ?_ ?_ hrest
    · cases i with
      | command h cmd =>
        simp only [step]
        rcases Agent_command_cases h cmd s with e | e | ⟨_, e⟩ | ⟨_, e⟩ | ⟨_, e⟩
        · rw [e]; exact hempty
        · rw [e]; exact hempty
        · rw [e]; intro _; rfl
        · rw [e]; intro hs; exact absurd hs h10
        · rw [e]; intro _; exact (allocation_tracing_report_fields h s).1
      | alloc e =>
        simp only [step]
        rcases SampledObjectAlloc_cases e.host e.thread e.object e.object_klass e.size s with
          c | ⟨he, _, _, c⟩ | ⟨sig, stack, r0, _, hpath, _, _, _, c⟩
            | ⟨stack, r0, _, _, _, _, c⟩ | c
        · rw [c]; exact hempty
        · rw [c]; intro _; exact he
        · rw [c]
          intro hs
          exact absurd ⟨hempty hs, hs⟩ hpath
        · rw [c]; intro hs; exact absurd hs h11
        · rw [c]; exact hempty
      | free tag =>
        simp only [step]
        cases hm : map_at s.allocs_by_tag tag with
        | none => rw [ObjectFree_absent tag s hm]; exact hempty
        | some p =>
          cases hr : s.allocs[p]? with
          | none => rw [ObjectFree_dangling tag s p hm hr]; exact hempty
          | some r =>
            by_cases hc : s.agent_state = allocation_tracing_flushing
                ∧ r.disable_marker = true
            · rw [ObjectFree_found_marker tag s p r hm hr hc]
              intro hs; exact absurd hs h12
            · rw [ObjectFree_found tag s p r hm hr hc]
              intro hs
              have := hempty hs
              rw [this] at hr
              simp at hr
    · cases i with
      | command h cmd =>
        simp only [step]
        rcases Agent_command_cases h cmd s with e | e | ⟨_, e⟩ | ⟨_, e⟩ | ⟨_, e⟩
        · rw [e]; exact hnone
        · rw [e]; exact hnone
        · rw [e]; intro r hr; simp [enable_allocation_tracing] at hr
        · rw [e]; exact hnone
        · rw [e, (allocation_tracing_report_fields h s).1]
          intro r hr; simp at hr
      | alloc e =>
        simp only [step]
        rcases SampledObjectAlloc_cases e.host e.thread e.object e.object_klass e.size s with
          c | ⟨_, _, _, c⟩ | ⟨sig, stack, r0, hsig, hpath, _, _, hb, c⟩
            | ⟨stack, r0, hsig, _, hst, hb, c⟩ | c
        · rw [c]; exact hnone
        · rw [c]; exact hnone
        · rw [c]
          have hobj := (allocation_record_built _ _ _ _ _ _ r0 hb).2.2.2.1
          intro r hr
          simp only [List.mem_append, List.mem_singleton] at hr
          rcases hr with hr | rfl
          · exact hnone r hr
          · intro hcls
            have hcls2 : sig = allocation_start_marker := hobj ▸ hcls
            rw [hcls2] at hsig
            have hs := hi hsig
            exact hpath ⟨hempty hs, hs⟩
        · rw [c]
          have hobj := (allocation_record_built _ _ _ _ _ _ r0 hb).2.2.2.1
          intro r hr
          simp only [List.mem_append, List.mem_singleton] at hr
          rcases hr with hr | rfl
          · exact hnone r hr
          · intro hcls
            have hcls2 : allocation_finish_marker = allocation_start_marker :=
              hobj ▸ hcls
            exact absurd hcls2 (by decide)
        · rw [c]; exact hnone
      | free tag =>
        simp only [step]
        cases hm : map_at s.allocs_by_tag tag with
        | none => rw [ObjectFree_absent tag s hm]; exact hnone
        | some p =>
          cases hr : s.allocs[p]? with
          | none => rw [ObjectFree_dangling tag s p hm hr]; exact hnone
          | some r =>
            have hset : ∀ r2 ∈ s.allocs.set p { r with freed := 1 },
                r2.obj_class ≠ allocation_start_marker := by
              intro r2 hr2
              rcases List.mem_or_eq_of_mem_set hr2 with h2 | rfl
              · exact hnone r2 h2
              · exact hnone r (List.getElem?_mem hr)
            by_cases hc : s.agent_state = allocation_tracing_flushing
                ∧ r.disable_marker = true
            · rw [ObjectFree_found_marker tag s p r hm hr hc]; exact hset
            · rw [ObjectFree_found tag s p r hm hr hc]; exact hset

/-- C3, amended: in a run from the initial state in which start markers are
sampled only while the state is `starting`, no record emitted by the report
has the type of the start marker; the stop marker, sampled in state
`stopping` with its stack and the names of its frames resolved, is recorded
like any other type and the report emits it. -/
theorem allocation_tracing_report_markers (h : Host) (inputs : List Input)
    (hdisc : start_marker_while_starting init inputs) :
    (∀ a ∈ (allocation_tracing_report h (run init inputs)).2,
        a.1 ≠ allocation_start_marker)
    ∧ (∀ (e : SampledAlloc) (stack : List jvmtiFrameInfo),
        e.host.GetClassSignature e.object_klass = some allocation_finish_marker →
        e.host.GetStackTrace e.thread = some stack →
        names_resolve e.host (stack.take MAX_FRAMES) = true →
        (run init inputs).agent_state = allocation_tracing_stopping →
        ∃ a ∈ (allocation_tracing_report h (step (run init inputs) (Input.alloc e))).2,
          a.1 = allocation_finish_marker) := by
  constructor
  · intro a ha
    rw [allocation_tracing_report_emitted] at ha
    obtain ⟨r, hr, rfl⟩ := List.mem_map.1 ha
    exact start_marker_not_recorded init inputs (fun _ => rfl)
      (fun r hr => by simp [init] at hr) hdisc r hr
  · intro e stack hsig hstack hnames hst
    obtain ⟨r, hb⟩ := allocation_record_of_names e.host allocation_finish_marker e.size
      e.thread (stack.take MAX_FRAMES) (run init inputs) hnames
    have hobj := (allocation_record_built _ _ _ _ _ _ r hb).2.2.2.1
    rw [allocation_tracing_report_emitted]
    simp only [step]
    rw [SampledObjectAlloc_record_stop e.host e.thread e.object e.object_klass e.size
      (run init inputs) allocation_finish_marker stack r hsig hstack hb ⟨hst, rfl⟩]
    exact ⟨_, List.mem_map.2 ⟨_, List.mem_append_right _ (List.mem_singleton_self _), rfl⟩,
      hobj⟩

/-- C3 amended, an instance: the session of the example keeps to the
discipline, and its report has no start marker. -/
theorem allocation_tracing_report_markers_witness :
    start_marker_while_starting init (demo_session ++ [Input.free 1])
    ∧ (∀ a ∈ (allocation_tracing_report demo_host
          (run init (demo_session ++ [Input.free 1]))).2,
        a.1 ≠ allocation_start_marker) :=
  ⟨by
      refine ⟨trivial, ?_, ?_, trivial, ?_, trivial, trivial⟩
      · intro _; rfl
      · intro hcontra
        exact absurd hcontra (by decide)
      · intro hcontra
        exact absurd hcontra (by decide),
    (allocation_tracing_report_markers demo_host (demo_session ++ [Input.free 1]) (by
      refine ⟨trivial, ?_, ?_, trivial, ?_, trivial, trivial⟩
      · intro _; rfl
      · intro hcontra
        exact absurd hcontra (by decide)
      · intro hcontra
        exact absurd hcontra (by decide))).1⟩

/-! ## Tags and the tag index along a run -/

theorem jlong_wrap_succ (n : Int) (h0 : 0 ≤ n) (h1 : n < jlong_max) :
    jlong_wrap (n + 1) = n + 1 := by
  unfold jlong_max at h1
  unfold jlong_wrap
  omega

theorem map_at_cons (m : List (Int × Nat)) (k : Int) (v : Nat) (key : Int) :
    map_at ((k, v) :: m) key = if key = k then some v else map_at m key := rfl

theorem well_formed_congr (s t : State) (hc : t.next_object_tag = s.next_object_tag)
    (ha : t.allocs = s.allocs) (hm : t.allocs_by_tag = s.allocs_by_tag)
    (hw : well_formed s) : well_formed t := by
  unfold well_formed at hw ⊢
  rw [hc, ha, hm]
  exact hw

theorem well_formed_cleared (t : State) (hc : 0 ≤ t.next_object_tag)
    (ha : t.allocs = []) (hm : t.allocs_by_tag = []) : well_formed t := by
  unfold well_formed
  rw [ha, hm]
  refine ⟨hc, ?_, ?_, ?_, ?_⟩
  · intro r hr; simp at hr
  · simp
  · intro t p hp; simp [map_at] at hp
  · intro p r hr; simp at hr

theorem well_formed_init : well_formed init :=
  well_formed_cleared init (le_refl _) rfl rfl

/-- Appending a record that carries the current counter as its tag, indexing
it, and incrementing the counter keeps the store well formed. -/
theorem well_formed_insert (s t : State) (r : alloc_rec)
    (hw : well_formed s) (hrange : s.next_object_tag < jlong_max)
    (hr : r.tag = s.next_object_tag)
    (hc : t.next_object_tag = jlong_wrap (s.next_object_tag + 1))
    (ha : t.allocs = s.allocs ++ [r])
    (hm : t.allocs_by_tag = map_emplace s.allocs_by_tag s.next_object_tag s.allocs.length) :
    well_formed t := by
  obtain ⟨h0, hlt, hpw, hsound, hcompl⟩ := hw
  have hfresh : map_at s.allocs_by_tag s.next_object_tag = none := by
    cases hq : map_at s.allocs_by_tag s.next_object_tag with
    | none => rfl
    | some p =>
      obtain ⟨r2, hr2, ht2⟩ := hsound _ p hq
      have := hlt r2 (List.getElem?_mem hr2)
      omega
  have hm2 : t.allocs_by_tag = (s.next_object_tag, s.allocs.length) :: s.allocs_by_tag := by
    rw [hm]; simp only [map_emplace, hfresh]
  unfold well_formed
  rw [hc, ha, hm2, jlong_wrap_succ _ h0 hrange]
  refine ⟨by omega, ?_, ?_, ?_, ?_⟩
  · intro r2 hr2
    rcases List.mem_append.1 hr2 with h2 | h2
    · have := hlt r2 h2; omega
    · rw [List.mem_singleton.1 h2, hr]; omega
  · rw [List.map_append, List.pairwise_append]
    refine ⟨hpw, by simp, ?_⟩
    intro a ha2 b hb
    obtain ⟨r2, hr2, rfl⟩ := List.mem_map.1 ha2
    simp only [List.map_cons, List.map_nil, List.mem_singleton] at hb
    rw [hb, hr]
    exact hlt r2 hr2
  · intro k p hp
    rw [map_at_cons] at hp
    by_cases hk : k = s.next_object_tag
    · rw [if_pos hk] at hp
      have hp2 : s.allocs.length = p := Option.some.inj hp
      refine ⟨r, ?_, by rw [hr, hk]⟩
      rw [← hp2, List.getElem?_append_right (le_refl _)]
      simp
    · rw [if_neg hk] at hp
      obtain ⟨r2, hr2, ht2⟩ := hsound k p hp
      refine ⟨r2, ?_, ht2⟩
      have hpl : p < s.allocs.length := by
        by_contra hge
        rw [List.getElem?_eq_none (by omega)] at hr2
        exact Option.noConfusion hr2
      rw [List.getElem?_append_left hpl]
      exact hr2
  · intro p r2 hr2
    rw [map_at_cons]
    by_cases hpl : p < s.allocs.length
    · rw [List.getElem?_append_left hpl] at hr2
      have hne : r2.tag ≠ s.next_object_tag := by
        have := hlt r2 (List.getElem?_mem hr2); omega
      rw [if_neg hne]
      exact hcompl p r2 hr2
    · rw [List.getElem?_append_right (by omega)] at hr2
      have hp0 : p - s.allocs.length = 0 := by
        by_contra hne
        rw [List.getElem?_eq_none (by simp; omega)] at hr2
        exact Option.noConfusion hr2
      rw [hp0] at hr2
      simp only [List.getElem?_cons_zero, Option.some.injEq] at hr2
      rw [← hr2, hr, if_pos rfl]
      congr 1
      omega

/-- Setting the freed flag of one record keeps the store well formed. -/
theorem well_formed_set_freed (s t : State) (p : Nat) (r : alloc_rec)
    (hw : well_formed s) (hp : s.allocs[p]? = some r)
    (hc : t.next_object_tag = s.next_object_tag)
    (ha : t.allocs = s.allocs.set p { r with freed := 1 })
    (hm : t.allocs_by_tag = s.allocs_by_tag) :
    well_formed t := by
  obtain ⟨h0, hlt, hpw, hsound, hcompl⟩ := hw
  have hpl0 : p < s.allocs.length := by
    by_contra hge
    rw [List.getElem?_eq_none (by omega)] at hp
    exact Option.noConfusion hp
  have htags : (s.allocs.set p { r with freed := 1 }).map (fun x => x.tag)
      = s.allocs.map (fun x => x.tag) := by
    apply List.ext_getElem?
    intro n
    simp only [List.getElem?_map, List.getElem?_set]
    by_cases hn : p = n
    · subst hn
      rw [if_pos rfl, hp, if_pos hpl0]
      rfl
    · rw [if_neg hn]
  have hget : ∀ (n : Nat) (x : alloc_rec),
      (s.allocs.set p { r with freed := 1 })[n]? = some x →
      ∃ y, s.allocs[n]? = some y ∧ y.tag = x.tag := by
    intro n x hx
    rw [List.getElem?_set] at hx
    by_cases hn : p = n
    · subst hn
      rw [if_pos rfl, if_pos hpl0] at hx
      exact ⟨r, hp, by rw [← Option.some.inj hx]⟩
    · rw [if_neg hn] at hx
      exact ⟨x, hx, rfl⟩
  unfold well_formed
  rw [hc, ha, hm, htags]
  refine ⟨h0, ?_, hpw, ?_, ?_⟩
  · intro x hx
    obtain ⟨n, hn⟩ := List.mem_iff_getElem?.1 hx
    obtain ⟨y, hy, hyt⟩ := hget n x hn
    rw [← hyt]
    exact hlt y (List.getElem?_mem hy)
  · intro k q hq
    obtain ⟨y, hy, hyt⟩ := hsound k q hq
    rw [List.getElem?_set]
    by_cases hn : p = q
    · subst hn
      rw [if_pos rfl, if_pos hpl0]
      rw [hp] at hy
      exact ⟨_, rfl, by rw [← hyt, ← Option.some.inj hy]⟩
    · rw [if_neg hn]
      exact ⟨y, hy, hyt⟩
  · intro q x hx
    obtain ⟨y, hy, hyt⟩ := hget q x hx
    rw [← hyt]
    exact hcompl q y hy

/-- Consuming a tag without inserting a record keeps the store well formed. -/
theorem well_formed_consumed (s t : State)
    (hw : well_formed s) (hrange : s.next_object_tag < jlong_max)
    (hc : t.next_object_tag = jlong_wrap (s.next_object_tag + 1))
    (ha : t.allocs = s.allocs) (hm : t.allocs_by_tag = s.allocs_by_tag) :
    well_formed t := by
  obtain ⟨h0, hlt, hpw, hsound, hcompl⟩ := hw
  unfold well_formed
  rw [hc, ha, hm, jlong_wrap_succ _ h0 hrange]
  exact ⟨by omega, fun r hr => by have := hlt r hr; omega, hpw, hsound, hcompl⟩

/-- One input keeps the store well formed, as long as the counter is below
the largest `jlong`. -/
theorem well_formed_step (s : State) (i : Input) (hw : well_formed s)
    (hrange : s.next_object_tag < jlong_max) : well_formed (step s i) := by
  cases i with
  | command h cmd =>
    simp only [step]
    rcases Agent_command_cases h cmd s with e | e | ⟨_, e⟩ | ⟨_, e⟩ | ⟨_, e⟩
    · rw [e]; exact hw
    · rw [e]; exact well_formed_congr s _ rfl rfl rfl hw
    · rw [e]; exact well_formed_cleared _ hw.1 rfl rfl
    · rw [e]; exact well_formed_congr s _ rfl rfl rfl hw
    · rw [e]
      have hf := allocation_tracing_report_fields h s
      exact well_formed_cleared _ (by rw [hf.2.2.1]; exact hw.1) hf.1 hf.2.1
  | alloc e =>
    simp only [step]
    rcases SampledObjectAlloc_cases e.host e.thread e.object e.object_klass e.size s with
      c | ⟨_, _, _, c⟩ | ⟨sig, stack, r0, _, _, _, _, hb, c⟩ | ⟨stack, r0, _, _, _, hb, c⟩ | c
    · rw [c]; exact hw
    · rw [c]; exact well_formed_congr s _ rfl rfl rfl hw
    · rw [c]
      exact well_formed_insert s _ r0 hw hrange
        (allocation_record_built _ _ _ _ _ _ r0 hb).1 rfl rfl rfl
    · rw [c]
      exact well_formed_insert s _ { r0 with disable_marker := true } hw hrange
        (allocation_record_built _ _ _ _ _ _ r0 hb).1 rfl rfl rfl
    · rw [c]; exact well_formed_consumed s _ hw hrange rfl rfl rfl
  | free tag =>
    simp only [step]
    cases hm : map_at s.allocs_by_tag tag with
    | none => rw [ObjectFree_absent tag s hm]; exact hw
    | some p =>
      cases hr : s.allocs[p]? with
      | none => rw [ObjectFree_dangling tag s p hm hr]; exact hw
      | some r =>
        by_cases hc : s.agent_state = allocation_tracing_flushing ∧ r.disable_marker = true
        · rw [ObjectFree_found_marker tag s p r hm hr hc]
          exact well_formed_set_freed s _ p r hw hr rfl rfl rfl
        · rw [ObjectFree_found tag s p r hm hr hc]
          exact well_formed_set_freed s _ p r hw hr rfl rfl rfl

theorem counter_in_range_head (s : State) (inputs : List Input)
    (hrange : counter_in_range s inputs) : s.next_object_tag < jlong_max := by
  cases inputs with
  | nil => exact hrange
  | cons i rest => exact hrange.1

theorem counter_in_range_append (s : State) (a b : List Input) :
    counter_in_range s (a ++ b) ↔ counter_in_range s a ∧ counter_in_range (run s a) b := by
  induction a generalizing s with
  | nil =>
    simp only [List.nil_append, run, counter_in_range]
    exact ⟨fun h => ⟨counter_in_range_head s b h, h⟩, fun h => h.2⟩
  | cons i rest ih =>
    show s.next_object_tag < jlong_max ∧ counter_in_range (step s i) (rest ++ b) ↔
      (s.next_object_tag < jlong_max ∧ counter_in_range (step s i) rest)
        ∧ counter_in_range (run (step s i) rest) b
    rw [ih, and_assoc]

/-- A run in which the counter stays in range keeps the store well formed. -/
theorem well_formed_run (s : State) (inputs : List Input) (hw : well_formed s)
    (hrange : counter_in_range s inputs) : well_formed (run s inputs) := by
  induction inputs generalizing s with
  | nil => exact hw
  | cons i rest ih => exact ih (step s i) (well_formed_step s i hw hrange.1) hrange.2

/-- One input leaves the counter alone or, when it builds a record, increments
it. -/
theorem step_counter (s : State) (i : Input) :
    (step s i).next_object_tag = s.next_object_tag
    ∨ (step s i).next_object_tag = jlong_wrap (s.next_object_tag + 1) := by
  cases i with
  | command h cmd =>
    simp only [step]
    rcases Agent_command_cases h cmd s with e | e | ⟨_, e⟩ | ⟨_, e⟩ | ⟨_, e⟩
    · left; rw [e]
    · left; rw [e]; rfl
    · left; rw [e]; rfl
    · left; rw [e]; rfl
    · left; rw [e]; exact (allocation_tracing_report_fields h s).2.2.1
  | alloc e =>
    simp only [step]
    rcases SampledObjectAlloc_cases e.host e.thread e.object e.object_klass e.size s with
      c | ⟨_, _, _, c⟩ | ⟨sig, stack, r0, _, _, _, _, _, c⟩ | ⟨stack, r0, _, _, _, _, c⟩ | c
    · left; rw [c]
    · left; rw [c]; rfl
    · right; rw [c]
    · right; rw [c]
    · right; rw [c]
  | free tag =>
    simp only [step]
    left
    cases hm : map_at s.allocs_by_tag tag with
    | none => rw [ObjectFree_absent tag s hm]
    | some p =>
      cases hr : s.allocs[p]? with
      | none => rw [ObjectFree_dangling tag s p hm hr]
      | some r =>
        by_cases hc : s.agent_state = allocation_tracing_flushing ∧ r.disable_marker = true
        · rw [ObjectFree_found_marker tag s p r hm hr hc]
        · rw [ObjectFree_found tag s p r hm hr hc]

/-- The counter never decreases along a run in which it stays in range. -/
theorem counter_mono (s : State) (inputs : List Input) (h0 : 0 ≤ s.next_object_tag)
    (hrange : counter_in_range s inputs) :
    s.next_object_tag ≤ (run s inputs).next_object_tag := by
  induction inputs generalizing s with
  | nil => exact le_refl _
  | cons i rest ih =>
    have hstep : s.next_object_tag ≤ (step s i).next_object_tag := by
      rcases step_counter s i with e | e
      · rw [e]
      · rw [e, jlong_wrap_succ _ h0 hrange.1]; omega
    exact le_trans hstep (ih (step s i) (le_trans h0 hstep) hrange.2)

/-- A sampled allocation that appends a record gives it the value of the
counter as tag and increments the counter. -/
theorem inserted_record (s : State) (e : SampledAlloc) (r : alloc_rec)
    (hins : (step s (Input.alloc e)).allocs = s.allocs ++ [r]) :
    r.tag = s.next_object_tag
    ∧ (step s (Input.alloc e)).next_object_tag = jlong_wrap (s.next_object_tag + 1) := by
  simp only [step] at hins ⊢
  rcases SampledObjectAlloc_cases e.host e.thread e.object e.object_klass e.size s with
    c | ⟨_, _, _, c⟩ | ⟨sig, stack, r0, _, _, _, _, hb, c⟩ | ⟨stack, r0, _, _, _, hb, c⟩ | c
  · rw [c] at hins
    have := congrArg List.length hins
    simp at this
  · rw [c] at hins
    have := congrArg List.length hins
    simp [set_state_env, set_state] at this
  · rw [c] at hins ⊢
    have h2 := List.append_cancel_left hins
    simp only [List.cons.injEq, and_true] at h2
    exact ⟨by rw [← h2]; exact (allocation_record_built _ _ _ _ _ _ r0 hb).1, rfl⟩
  · rw [c] at hins ⊢
    have h2 := List.append_cancel_left hins
    simp only [List.cons.injEq, and_true] at h2
    exact ⟨by rw [← h2]; exact (allocation_record_built _ _ _ _ _ _ r0 hb).1, rfl⟩
  · rw [c] at hins
    have := congrArg List.length hins
    simp at this

/-- The tag of a record inserted from a well-formed state is smaller than the
counter at any later moment of the run. -/
theorem inserted_tag_lt_later (s : State) (e : SampledAlloc) (post : List Input)
    (r : alloc_rec) (hw : well_formed s)
    (hrange : counter_in_range s (Input.alloc e :: post))
    (hins : (step s (Input.alloc e)).allocs = s.allocs ++ [r]) :
    r.tag = s.next_object_tag
    ∧ r.tag < (run s (Input.alloc e :: post)).next_object_tag := by
  obtain ⟨ht, hc⟩ := inserted_record s e r hins
  rw [jlong_wrap_succ _ hw.1 hrange.1] at hc
  refine ⟨ht, ?_⟩
  have hm := counter_mono (step s (Input.alloc e)) post (by rw [hc]; have := hw.1; omega)
    hrange.2
  simp only [run]
  rw [hc] at hm
  omega

/-- C10: in every state reached from the initial one by commands, sampled
allocations and free events, the counter staying in range, the tags of the
records increase strictly along the record sequence (so they are pairwise
distinct) and are below the value `next_tag` returns next.  A record inserted
at any moment of the run carries the value `next_tag` returned then, which is
greater than every tag in the store then and smaller than what `next_tag`
returns at any later moment, whatever start and report commands lie between;
so of two records inserted at different moments the later has the greater
tag. -/
theorem tags_increase (inputs : List Input) (hrange : counter_in_range init inputs) :
    ((run init inputs).allocs.map (fun r => r.tag)).Pairwise (fun a b => a < b)
    ∧ ((run init inputs).allocs.map (fun r => r.tag)).Nodup
    ∧ (∀ r ∈ (run init inputs).allocs, r.tag < (next_tag (run init inputs)).1)
    ∧ (∀ (pre post : List Input) (e : SampledAlloc) (r : alloc_rec),
        inputs = pre ++ Input.alloc e :: post →
        (step (run init pre) (Input.alloc e)).allocs = (run init pre).allocs ++ [r] →
        r.tag = (next_tag (run init pre)).1
        ∧ (∀ r0 ∈ (run init pre).allocs, r0.tag < r.tag)
        ∧ r.tag < (next_tag (run init inputs)).1)
    ∧ (∀ (pre mid post : List Input) (e e2 : SampledAlloc) (r r2 : alloc_rec),
        inputs = pre ++ Input.alloc e :: (mid ++ Input.alloc e2 :: post) →
        (step (run init pre) (Input.alloc e)).allocs = (run init pre).allocs ++ [r] →
        (step (run init (pre ++ Input.alloc e :: mid)) (Input.alloc e2)).allocs
          = (run init (pre ++ Input.alloc e :: mid)).allocs ++ [r2] →
        r.tag < r2.tag) := by
  have hw := well_formed_run init inputs well_formed_init hrange
  refine ⟨hw.2.2.1, ?_, hw.2.1, ?_, ?_⟩
  · exact hw.2.2.1.imp (fun hlt => ne_of_lt hlt)
  · intro pre post e r hsplit hins
    subst hsplit
    obtain ⟨hr1, hr2⟩ := (counter_in_range_append init pre _).1 hrange
    have hwpre := well_formed_run init pre well_formed_init hr1
    obtain ⟨ht, hlater⟩ := inserted_tag_lt_later (run init pre) e post r hwpre hr2 hins
    refine ⟨ht, ?_, ?_⟩
    · intro r0 hr0
      rw [ht]
      exact hwpre.2.1 r0 hr0
    · rw [run_append]
      exact hlater
  · intro pre mid post e e2 r r2 hsplit hins hins2
    subst hsplit
    obtain ⟨hr1, hr2⟩ := (counter_in_range_append init pre _).1 hrange
    have hwpre := well_formed_run init pre well_formed_init hr1
    have hr3 : counter_in_range (run init pre) ((Input.alloc e :: mid)
        ++ Input.alloc e2 :: post) := hr2
    obtain ⟨hr4, _⟩ := (counter_in_range_append (run init pre) (Input.alloc e :: mid) _).1 hr3
    obtain ⟨_, hlater⟩ := inserted_tag_lt_later (run init pre) e mid r hwpre hr4 hins
    obtain ⟨ht2, _⟩ := inserted_record (run init (pre ++ Input.alloc e :: mid)) e2 r2 hins2
    rw [ht2, run_append]
    exact hlater

/-! ## The freed flag -/

theorem getElem?_lt_length {α : Type} (l : List α) (n : Nat) (a : α)
    (h : l[n]? = some a) : n < l.length := by
  by_contra hge
  rw [List.getElem?_eq_none (by omega)] at h
  exact Option.noConfusion h

/-- A sampled allocation touches no record already in the store. -/
theorem SampledObjectAlloc_keeps_records (e : SampledAlloc) (s : State) (n : Nat)
    (r : alloc_rec) (hn : s.allocs[n]? = some r) :
    (step s (Input.alloc e)).allocs[n]? = some r := by
  have hl := getElem?_lt_length _ _ _ hn
  simp only [step]
  rcases SampledObjectAlloc_cases e.host e.thread e.object e.object_klass e.size s with
    c | ⟨_, _, _, c⟩ | ⟨sig, stack, r0, _, _, _, _, _, c⟩ | ⟨stack, r0, _, _, _, _, c⟩ | c
  · rw [c]; exact hn
  · rw [c]; exact hn
  · rw [c]
    show (s.allocs ++ _)[n]? = some r
    rw [List.getElem?_append_left hl]; exact hn
  · rw [c]
    show (s.allocs ++ _)[n]? = some r
    rw [List.getElem?_append_left hl]; exact hn
  · rw [c]; exact hn

/-- What `ObjectFree` does to the record sequence, for every state. -/
theorem ObjectFree_allocs (tag : Int) (s : State) :
    (ObjectFree tag s).allocs = s.allocs
    ∨ ∃ p r, map_at s.allocs_by_tag tag = some p ∧ s.allocs[p]? = some r
        ∧ (ObjectFree tag s).allocs = s.allocs.set p { r with freed := 1 } := by
  cases hm : map_at s.allocs_by_tag tag with
  | none => left; rw [ObjectFree_absent tag s hm]
  | some p =>
    cases hr : s.allocs[p]? with
    | none => left; rw [ObjectFree_dangling tag s p hm hr]
    | some r =>
      right
      refine ⟨p, r, rfl, hr, ?_⟩
      by_cases hc : s.agent_state = allocation_tracing_flushing ∧ r.disable_marker = true
      · rw [ObjectFree_found_marker tag s p r hm hr hc]
      · rw [ObjectFree_found tag s p r hm hr hc]

theorem set_freed_eq_self (r : alloc_rec) (h : r.freed = 1) : { r with freed := 1 } = r := by
  cases r
  simp only at h
  subst h
  rfl

/-- In a well-formed store one input that does not clear the store leaves a
record as it is, unless it is the free event of the record's tag and the
record was not freed before. -/
theorem record_kept_step (s : State) (i : Input) (n : Nat) (r : alloc_rec)
    (hw : well_formed s) (hn : s.allocs[n]? = some r)
    (hclear : ¬ clears_store i) (hfree : i ≠ Input.free r.tag ∨ r.freed = 1) :
    (step s i).allocs[n]? = some r := by
  cases i with
  | command h cmd =>
    simp only [step]
    rw [(Agent_command_keeps h cmd s hclear).1]
    exact hn
  | alloc e => exact SampledObjectAlloc_keeps_records e s n r hn
  | free tag =>
    simp only [step]
    rcases ObjectFree_allocs tag s with e | ⟨p, r0, hm, hr0, e⟩
    · rw [e]; exact hn
    · rw [e]
      by_cases hpn : p = n
      · subst hpn
        rw [hn] at hr0
        have hr0' : r = r0 := Option.some.inj hr0
        subst hr0'
        rcases hfree with hne | hfreed
        · exfalso
          obtain ⟨r2, hr2, ht2⟩ := hw.2.2.2.1 tag p hm
          rw [hn] at hr2
          have : r = r2 := Option.some.inj hr2
          subst this
          exact hne (by rw [ht2])
        · rw [set_freed_eq_self r hfreed, List.getElem?_set,
            if_pos rfl, if_pos (getElem?_lt_length _ _ _ hn)]
      · rw [List.getElem?_set_ne hpn]
        exact hn

/-- The same along a run. -/
theorem record_kept (s : State) (more : List Input) (n : Nat) (r : alloc_rec)
    (hw : well_formed s) (hrange : counter_in_range s more) (hn : s.allocs[n]? = some r)
    (hclear : ∀ i ∈ more, ¬ clears_store i)
    (hfree : (∀ i ∈ more, i ≠ Input.free r.tag) ∨ r.freed = 1) :
    (run s more).allocs[n]? = some r := by
  induction more generalizing s with
  | nil => exact hn
  | cons i rest ih =>
    have hstep : (step s i).allocs[n]? = some r :=
      record_kept_step s i n r hw hn (hclear i (List.mem_cons_self i rest))
        (hfree.imp (fun hf => hf i (List.mem_cons_self i rest)) id)
    exact ih (step s i) (well_formed_step s i hw hrange.1) hrange.2 hstep
      (fun j hj => hclear j (List.mem_cons_of_mem i hj))
      (hfree.imp (fun hf j hj => hf j (List.mem_cons_of_mem i hj)) id)

theorem ObjectFree_allocs_found (tag : Int) (s : State) (p : Nat) (r : alloc_rec)
    (hm : map_at s.allocs_by_tag tag = some p) (hr : s.allocs[p]? = some r) :
    (ObjectFree tag s).allocs = s.allocs.set p { r with freed := 1 } := by
  by_cases hc : s.agent_state = allocation_tracing_flushing ∧ r.disable_marker = true
  · rw [ObjectFree_found_marker tag s p r hm hr hc]
  · rw [ObjectFree_found tag s p r hm hr hc]

theorem ObjectFree_index (tag : Int) (s : State) :
    (ObjectFree tag s).allocs_by_tag = s.allocs_by_tag
    ∧ (ObjectFree tag s).next_object_tag = s.next_object_tag := by
  cases hm : map_at s.allocs_by_tag tag with
  | none => rw [ObjectFree_absent tag s hm]; exact ⟨rfl, rfl⟩
  | some p =>
    cases hr : s.allocs[p]? with
    | none => rw [ObjectFree_dangling tag s p hm hr]; exact ⟨rfl, rfl⟩
    | some r =>
      by_cases hc : s.agent_state = allocation_tracing_flushing ∧ r.disable_marker = true
      · rw [ObjectFree_found_marker tag s p r hm hr hc]; exact ⟨rfl, rfl⟩
      · rw [ObjectFree_found tag s p r hm hr hc]; exact ⟨rfl, rfl⟩

/-- A record appended by a sampled allocation is not freed. -/
theorem inserted_record_freed (s : State) (e : SampledAlloc) (r : alloc_rec)
    (hins : (step s (Input.alloc e)).allocs = s.allocs ++ [r]) : r.freed = 0 := by
  simp only [step] at hins
  rcases SampledObjectAlloc_cases e.host e.thread e.object e.object_klass e.size s with
    c | ⟨_, _, _, c⟩ | ⟨sig, stack, r0, _, _, _, _, hb, c⟩ | ⟨stack, r0, _, _, _, hb, c⟩ | c
  · rw [c] at hins
    have := congrArg List.length hins
    simp at this
  · rw [c] at hins
    have := congrArg List.length hins
    simp [set_state_env, set_state] at this
  · rw [c] at hins
    have h2 := List.append_cancel_left hins
    simp only [List.cons.injEq, and_true] at h2
    rw [← h2]; exact (allocation_record_built _ _ _ _ _ _ r0 hb).2.1
  · rw [c] at hins
    have h2 := List.append_cancel_left hins
    simp only [List.cons.injEq, and_true] at h2
    rw [← h2]; exact (allocation_record_built _ _ _ _ _ _ r0 hb).2.1
  · rw [c] at hins
    have := congrArg List.length hins
    simp at this

/-- The record a sampled allocation appends, followed through a run that
neither clears the store nor frees its tag: it is still there, unchanged. -/
theorem inserted_record_kept (inputs : List Input) (e : SampledAlloc) (r : alloc_rec)
    (before : List Input)
    (hrange : counter_in_range init (inputs ++ Input.alloc e :: before))
    (hins : (step (run init inputs) (Input.alloc e)).allocs
      = (run init inputs).allocs ++ [r])
    (hbefore : ∀ i ∈ before, ¬ clears_store i ∧ i ≠ Input.free r.tag) :
    well_formed (run init (inputs ++ Input.alloc e :: before))
    ∧ (run init (inputs ++ Input.alloc e :: before)).allocs[(run init inputs).allocs.length]?
        = some r := by
  obtain ⟨hr1, hr2⟩ := (counter_in_range_append init inputs _).1 hrange
  have hw0 := well_formed_run init inputs well_formed_init hr1
  have hw1 := well_formed_step (run init inputs) (Input.alloc e) hw0 hr2.1
  have hn1 : (step (run init inputs) (Input.alloc e)).allocs[(run init inputs).allocs.length]?
      = some r := by
    rw [hins, List.getElem?_append_right (le_refl _)]
    simp
  rw [run_append]
  exact ⟨well_formed_run _ before hw1 hr2.2,
    record_kept _ before _ r hw1 hr2.2 hn1 (fun i hi => (hbefore i hi).1)
      (Or.inl (fun i hi => (hbefore i hi).2))⟩

/-- C6: `ObjectFree` leaves the tag index and the counter alone and changes
the record sequence in nothing but the freed flag of the record the index
holds for the tag, which becomes true; for a tag without record the whole
state is unchanged (the lookup failure is caught).  A freed flag that is set
stays set through every free event and every sampled allocation.  Hence, in a
run from the initial state with the counter in range: a record is inserted
with the flag false and stays as it is while the store is not cleared and no
free event for its tag arrives; after the first free event for its tag, and
as long as the store is not cleared, it is the same record with the flag
true. -/
theorem ObjectFree_store (tag : Int) (s : State) :
    (ObjectFree tag s).allocs_by_tag = s.allocs_by_tag
    ∧ (ObjectFree tag s).next_object_tag = s.next_object_tag
    ∧ (ObjectFree tag s).allocs.length = s.allocs.length
    ∧ (map_at s.allocs_by_tag tag = none → ObjectFree tag s = s)
    ∧ (∀ (p : Nat) (r : alloc_rec), map_at s.allocs_by_tag tag = some p →
        s.allocs[p]? = some r →
        (ObjectFree tag s).allocs = s.allocs.set p { r with freed := 1 })
    ∧ (∀ (q : Nat) (r : alloc_rec), s.allocs[q]? = some r → r.freed ≠ 0 →
        ∃ r2, (ObjectFree tag s).allocs[q]? = some r2 ∧ r2.freed ≠ 0)
    ∧ (∀ (e : SampledAlloc) (q : Nat) (r : alloc_rec), s.allocs[q]? = some r →
        (step s (Input.alloc e)).allocs[q]? = some r)
    ∧ (∀ (inputs before : List Input) (e : SampledAlloc) (r : alloc_rec),
        counter_in_range init (inputs ++ Input.alloc e :: before) →
        (step (run init inputs) (Input.alloc e)).allocs = (run init inputs).allocs ++ [r] →
        (∀ i ∈ before, ¬ clears_store i ∧ i ≠ Input.free r.tag) →
        r.freed = 0
        ∧ (run init (inputs ++ Input.alloc e :: before)).allocs[
            (run init inputs).allocs.length]? = some r)
    ∧ (∀ (inputs before after : List Input) (e : SampledAlloc) (r : alloc_rec),
        counter_in_range init
          (inputs ++ Input.alloc e :: (before ++ Input.free r.tag :: after)) →
        (step (run init inputs) (Input.alloc e)).allocs = (run init inputs).allocs ++ [r] →
        (∀ i ∈ before, ¬ clears_store i ∧ i ≠ Input.free r.tag) →
        (∀ i ∈ after, ¬ clears_store i) →
        (run init (inputs ++ Input.alloc e :: (before ++ Input.free r.tag :: after))).allocs[
            (run init inputs).allocs.length]? = some { r with freed := 1 }) := by
  refine ⟨(ObjectFree_index tag s).1, (ObjectFree_index tag s).2, ?_,
    ObjectFree_absent tag s, ObjectFree_allocs_found tag s, ?_,
    fun e q r hq => SampledObjectAlloc_keeps_records e s q r hq, ?_, ?_⟩
  · rcases ObjectFree_allocs tag s with e | ⟨p, r, _, _, e⟩
    · rw [e]
    · rw [e, List.length_set]
  · intro q r hq hfreed
    rcases ObjectFree_allocs tag s with e | ⟨p, r0, _, hr0, e⟩
    · rw [e]; exact ⟨r, hq, hfreed⟩
    · rw [e, List.getElem?_set]
      by_cases hpq : p = q
      · subst hpq
        rw [if_pos rfl, if_pos (getElem?_lt_length _ _ _ hq)]
        exact ⟨_, rfl, one_ne_zero⟩
      · rw [if_neg hpq]
        exact ⟨r, hq, hfreed⟩
  · intro inputs before e r hrange hins hbefore
    exact ⟨inserted_record_freed _ e r hins,
      (inserted_record_kept inputs e r before hrange hins hbefore).2⟩
  · intro inputs before after e r hrange hins hbefore hafter
    have hsplit : inputs ++ Input.alloc e :: (before ++ Input.free r.tag :: after)
        = (inputs ++ Input.alloc e :: before) ++ (Input.free r.tag :: after) := by
      simp
    rw [hsplit] at hrange ⊢
    obtain ⟨hr1, hr2⟩ := (counter_in_range_append init _ _).1 hrange
    obtain ⟨hw2, hn2⟩ := inserted_record_kept inputs e r before hr1 hins hbefore
    have hidx := hw2.2.2.2.2 _ r hn2
    have hw3 := well_formed_step _ (Input.free r.tag) hw2 hr2.1
    have hn3 : (step (run init (inputs ++ Input.alloc e :: before))
        (Input.free r.tag)).allocs[(run init inputs).allocs.length]?
        = some { r with freed := 1 } := by
      simp only [step]
      rw [ObjectFree_allocs_found r.tag _ _ r hidx hn2, List.getElem?_set, if_pos rfl,
        if_pos (getElem?_lt_length _ _ _ hn2)]
    rw [run_append]
    exact record_kept _ after _ _ hw3 hr2.2 hn3 hafter (Or.inr rfl)

/-- C6, an instance: the `Foo` record of the example session is inserted with
the flag false, is unchanged after the stop command, and has the flag true
after its free event and the events that follow. -/
theorem ObjectFree_store_witness :
    counter_in_range init
      ([demo_start, demo_alloc_start_marker] ++ Input.alloc demo_foo_event ::
        ([demo_stop] ++ Input.free demo_foo_record.tag :: [demo_alloc_finish_marker]))
    ∧ (step (run init [demo_start, demo_alloc_start_marker]) (Input.alloc demo_foo_event)).allocs
        = (run init [demo_start, demo_alloc_start_marker]).allocs ++ [demo_foo_record]
    ∧ (∀ i ∈ [demo_stop], ¬ clears_store i ∧ i ≠ Input.free demo_foo_record.tag)
    ∧ (∀ i ∈ [demo_alloc_finish_marker], ¬ clears_store i)
    ∧ (run init
        ([demo_start, demo_alloc_start_marker] ++ Input.alloc demo_foo_event ::
          ([demo_stop] ++ Input.free demo_foo_record.tag :: [demo_alloc_finish_marker]))).allocs[
        (run init [demo_start, demo_alloc_start_marker]).allocs.length]?
        = some { demo_foo_record with freed := 1 } := by
  have hrange : counter_in_range init
      ([demo_start, demo_alloc_start_marker] ++ Input.alloc demo_foo_event ::
        ([demo_stop] ++ Input.free demo_foo_record.tag :: [demo_alloc_finish_marker])) :=
    ⟨by decide, by decide, by decide, by decide, by decide, by decide,
      by unfold counter_in_range; decide⟩
  have hins : (step (run init [demo_start, demo_alloc_start_marker])
      (Input.alloc demo_foo_event)).allocs
        = (run init [demo_start, demo_alloc_start_marker]).allocs ++ [demo_foo_record] := rfl
  have hbefore : ∀ i ∈ [demo_stop],
      ¬ clears_store i ∧ i ≠ Input.free demo_foo_record.tag := by
    intro i hi
    rw [List.mem_singleton] at hi
    subst hi
    exact ⟨by simp [clears_store, demo_stop, stop_allocation_tracing,
      start_allocation_tracing, report_allocation_tracing], by simp [demo_stop]⟩
  have hafter : ∀ i ∈ [demo_alloc_finish_marker], ¬ clears_store i := by
    intro i hi
    rw [List.mem_singleton] at hi
    subst hi
    simp [clears_store, demo_alloc_finish_marker]
  exact ⟨hrange, hins, hbefore, hafter,
    (ObjectFree_store 0 init).2.2.2.2.2.2.2.2 _ _ _ demo_foo_event demo_foo_record
      hrange hins hbefore hafter⟩

/-- C10, an instance: in a run with a report in the middle the counter stays
in range and the tags of the two records of the second session increase. -/
theorem tags_increase_witness :
    counter_in_range init demo_two_sessions
    ∧ ((run init demo_two_sessions).allocs.map (fun r => r.tag)).Pairwise (fun a b => a < b)
    ∧ (∀ r ∈ (run init demo_two_sessions).allocs,
        r.tag < (next_tag (run init demo_two_sessions)).1) :=
  ⟨⟨by decide, by decide, by decide, by decide, by decide, by decide,
      by unfold counter_in_range; decide⟩,
    (tags_increase demo_two_sessions
      ⟨by decide, by decide, by decide, by decide, by decide, by decide,
      by unfold counter_in_range; decide⟩).1,
    (tags_increase demo_two_sessions
      ⟨by decide, by decide, by decide, by decide, by decide, by decide,
      by unfold counter_in_range; decide⟩).2.2.1⟩

/-! ## The mirrored state field -/

theorem ObjectFree_state_field (tag : Int) (s : State) :
    (ObjectFree tag s).agent_state_field = s.agent_state_field := by
  cases hm : map_at s.allocs_by_tag tag with
  | none => rw [ObjectFree_absent tag s hm]
  | some p =>
    cases hr : s.allocs[p]? with
    | none => rw [ObjectFree_dangling tag s p hm hr]
    | some r =>
      by_cases hc : s.agent_state = allocation_tracing_flushing ∧ r.disable_marker = true
      · rw [ObjectFree_found_marker tag s p r hm hr hc]
      · rw [ObjectFree_found tag s p r hm hr hc]

theorem allocation_tracing_report_state (h : Host) (s : State) :
    (allocation_tracing_report h s).1.agent_state = s.agent_state
    ∧ (allocation_tracing_report h s).1.agent_state_field = s.agent_state_field := by
  by_cases hl : (all_tags s.allocs).length > 0 <;>
    simp [allocation_tracing_report, untag_objects, untag_loop_eq, hl]

/-- A command leaves the field `Agent.state` equal to the tracing state when
it was so before, and the start, stop and sync commands make it so. -/
theorem Agent_command_state_field (h : Host) (cmd : Int) (s : State) :
    (s.agent_state_field = s.agent_state →
      (Agent_command h cmd s).1.agent_state_field = (Agent_command h cmd s).1.agent_state)
    ∧ (cmd = start_allocation_tracing ∨ cmd = stop_allocation_tracing ∨ cmd = sync_state →
      (Agent_command h cmd s).1.agent_state_field = (Agent_command h cmd s).1.agent_state) := by
  have hsync : cmd = sync_state →
      (Agent_command h cmd s).1 = set_state_env s.agent_state s := by
    intro hc
    subst hc
    unfold Agent_command
    rw [if_neg (by decide), if_pos rfl]
  rcases Agent_command_cases h cmd s with e | e | ⟨c, e⟩ | ⟨c, e⟩ | ⟨c, e⟩
  · refine ⟨fun heq => by rw [e]; exact heq, ?_⟩
    rintro (hc | hc | hc)
    · subst hc
      have : (Agent_command h start_allocation_tracing s).1 = enable_allocation_tracing s := by
        unfold Agent_command
        rw [if_neg (by decide), if_neg (by decide), if_pos rfl]
      rw [this]; rfl
    · subst hc
      have : (Agent_command h stop_allocation_tracing s).1 = disable_allocation_tracing s := by
        unfold Agent_command
        rw [if_neg (by decide), if_neg (by decide), if_neg (by decide), if_pos rfl]
      rw [this]; rfl
    · rw [hsync hc]; rfl
  · rw [e]; exact ⟨fun _ => rfl, fun _ => rfl⟩
  · rw [e]; exact ⟨fun _ => rfl, fun _ => rfl⟩
  · rw [e]; exact ⟨fun _ => rfl, fun _ => rfl⟩
  · rw [e]
    have hf := allocation_tracing_report_state h s
    refine ⟨fun heq => by rw [hf.1, hf.2]; exact heq, ?_⟩
    rintro (hc | hc | hc)
    · rw [c] at hc; exact absurd hc (by decide)
    · rw [c] at hc; exact absurd hc (by decide)
    · rw [c] at hc; exact absurd hc (by decide)

/-- A sampled allocation that changes the tracing state writes the new value
into the field `Agent.state`; one that does not leaves the field alone. -/
theorem SampledObjectAlloc_state_field (e : SampledAlloc) (s : State) :
    ((step s (Input.alloc e)).agent_state ≠ s.agent_state →
      (step s (Input.alloc e)).agent_state_field = (step s (Input.alloc e)).agent_state)
    ∧ ((step s (Input.alloc e)).agent_state = s.agent_state →
      (step s (Input.alloc e)).agent_state_field = s.agent_state_field) := by
  simp only [step]
  rcases SampledObjectAlloc_cases e.host e.thread e.object e.object_klass e.size s with
    c | ⟨_, hst, _, c⟩ | ⟨sig, stack, r0, _, _, _, _, _, c⟩ | ⟨stack, r0, _, _, hst, _, c⟩ | c
  · rw [c]; exact ⟨fun hne => absurd rfl hne, fun _ => rfl⟩
  · rw [c]
    refine ⟨fun _ => rfl, fun heq => ?_⟩
    have h1 : allocation_tracing_active = s.agent_state := heq
    rw [hst] at h1
    exact absurd h1 (by decide)
  · rw [c]; exact ⟨fun hne => absurd rfl hne, fun _ => rfl⟩
  · rw [c]
    refine ⟨fun _ => rfl, fun heq => ?_⟩
    have h1 : allocation_tracing_flushing = s.agent_state := heq
    rw [hst] at h1
    exact absurd h1 (by decide)
  · rw [c]; exact ⟨fun hne => absurd rfl hne, fun _ => rfl⟩

/-- C11, the claim refuted: after the session of the example the field
`Agent.state` equals the tracing state (`flushing`); the free event of the
stop marker then sets the tracing state to `flushed` and leaves the field at
`flushing`. -/
theorem state_field_stale_after_free :
    (run init demo_session).agent_state_field = (run init demo_session).agent_state
    ∧ (run init (demo_session ++ [Input.free 1])).agent_state = allocation_tracing_flushed
    ∧ (run init (demo_session ++ [Input.free 1])).agent_state_field
        = allocation_tracing_flushing
    ∧ (run init (demo_session ++ [Input.free 1])).agent_state_field
        ≠ (run init (demo_session ++ [Input.free 1])).agent_state := by
  refine ⟨rfl, rfl, rfl, by decide⟩

/-- C11, amended: the start, stop and sync commands and the two marker
observations of `SampledObjectAlloc` write the new tracing state into the field
`Agent.state`, and no command or sampled allocation breaks the equality of
field and state; `ObjectFree` never writes the field.  So in every state
reached from the initial one the field equals the tracing state, except after
the free event of the stop marker, when the state is `flushed` and the field
still `flushing`; a sync command makes them equal again. -/
theorem state_field_mirror (inputs : List Input) :
    ((run init inputs).agent_state_field = (run init inputs).agent_state
      ∨ ((run init inputs).agent_state = allocation_tracing_flushed
          ∧ (run init inputs).agent_state_field = allocation_tracing_flushing))
    ∧ (∀ (s : State) (h : Host) (cmd : Int),
        cmd = start_allocation_tracing ∨ cmd = stop_allocation_tracing ∨ cmd = sync_state →
        (Agent_command h cmd s).1.agent_state_field = (Agent_command h cmd s).1.agent_state)
    ∧ (∀ (s : State) (h : Host) (cmd : Int), s.agent_state_field = s.agent_state →
        (Agent_command h cmd s).1.agent_state_field = (Agent_command h cmd s).1.agent_state)
    ∧ (∀ (s : State) (e : SampledAlloc),
        (step s (Input.alloc e)).agent_state ≠ s.agent_state →
        (step s (Input.alloc e)).agent_state_field = (step s (Input.alloc e)).agent_state)
    ∧ (∀ (s : State) (e : SampledAlloc), s.agent_state_field = s.agent_state →
        (step s (Input.alloc e)).agent_state_field = (step s (Input.alloc e)).agent_state)
    ∧ (∀ (s : State) (tag : Int),
        (ObjectFree tag s).agent_state_field = s.agent_state_field) := by
  have halloc : ∀ (s : State) (e : SampledAlloc), s.agent_state_field = s.agent_state →
      (step s (Input.alloc e)).agent_state_field = (step s (Input.alloc e)).agent_state := by
    intro s e heq
    by_cases hch : (step s (Input.alloc e)).agent_state = s.agent_state
    · rw [(SampledObjectAlloc_state_field e s).2 hch, hch]; exact heq
    · exact (SampledObjectAlloc_state_field e s).1 hch
  refine ⟨?_, fun s h cmd hc => (Agent_command_state_field h cmd s).2 hc,
    fun s h cmd heq => (Agent_command_state_field h cmd s).1 heq,
    fun s e hne => (SampledObjectAlloc_state_field e s).1 hne, halloc,
    fun s tag => ObjectFree_state_field tag s⟩
  suffices hinv : ∀ (s : State),
      (s.agent_state_field = s.agent_state
        ∨ (s.agent_state = allocation_tracing_flushed
            ∧ s.agent_state_field = allocation_tracing_flushing)) →
      ((run s inputs).agent_state_field = (run s inputs).agent_state
        ∨ ((run s inputs).agent_state = allocation_tracing_flushed
            ∧ (run s inputs).agent_state_field = allocation_tracing_flushing)) from
    hinv init (Or.inl rfl)
  induction inputs with
  | nil => exact fun s hs => hs
  | cons i rest ih =>
    intro s hs
    refine ih (step s i) ?_
    cases i with
    | command h cmd =>
      simp only [step]
      rcases Agent_command_cases h cmd s with e | e | ⟨_, e⟩ | ⟨_, e⟩ | ⟨_, e⟩
      · rw [e]; exact hs
      · rw [e]; exact Or.inl rfl
      · rw [e]; exact Or.inl rfl
      · rw [e]; exact Or.inl rfl
      · rw [e, (allocation_tracing_report_state h s).1,
          (allocation_tracing_report_state h s).2]
        exact hs
    | alloc e =>
      by_cases hch : (step s (Input.alloc e)).agent_state = s.agent_state
      · rw [(SampledObjectAlloc_state_field e s).2 hch, hch]; exact hs
      · exact Or.inl ((SampledObjectAlloc_state_field e s).1 hch)
    | free tag =>
      simp only [step]
      cases hm : map_at s.allocs_by_tag tag with
      | none => rw [ObjectFree_absent tag s hm]; exact hs
      | some p =>
        cases hr : s.allocs[p]? with
        | none => rw [ObjectFree_dangling tag s p hm hr]; exact hs
        | some r =>
          by_cases hc : s.agent_state = allocation_tracing_flushing ∧ r.disable_marker = true
          · rw [ObjectFree_found_marker tag s p r hm hr hc]
            right
            refine ⟨rfl, ?_⟩
            rcases hs with heq | ⟨hfl, _⟩
            · show s.agent_state_field = allocation_tracing_flushing
              rw [heq, hc.1]
            · rw [hc.1] at hfl
              exact absurd hfl (by decide)
          · rw [ObjectFree_found tag s p r hm hr hc]; exact hs

/-- C11 amended, an instance: after the stop command of the example session
the field equals the tracing state, and the stop marker keeps it so. -/
theorem state_field_mirror_witness :
    (run init [demo_start, demo_alloc_start_marker, demo_alloc_foo, demo_stop]).agent_state_field
      = (run init [demo_start, demo_alloc_start_marker, demo_alloc_foo, demo_stop]).agent_state
    ∧ (step (run init [demo_start, demo_alloc_start_marker, demo_alloc_foo, demo_stop])
        demo_alloc_finish_marker).agent_state_field
      = (step (run init [demo_start, demo_alloc_start_marker, demo_alloc_foo, demo_stop])
        demo_alloc_finish_marker).agent_state :=
  ⟨rfl, (state_field_mirror []).2.2.2.2.1 _ _ rfl⟩

/-! ## The tag list of the untag step -/

theorem all_tags_length (allocs : List alloc_rec) :
    (all_tags allocs).length = 2 * allocs.length := by
  simp only [all_tags, List.length_append, List.length_replicate, List.length_map]
  omega

/-- C12, the code evaluated: with two records in the store, whose tags are 1
and 2, `all_tags` has four entries, two zeros followed by the two tags, and
this is the list the report submits to `GetObjectsWithTags`. -/
theorem all_tags_leading_zeros :
    (run init demo_two_sessions).allocs.map (fun r => r.tag) = [1, 2]
    ∧ all_tags (run init demo_two_sessions).allocs = [0, 0, 1, 2]
    ∧ HostCall.GetObjectsWithTags [0, 0, 1, 2]
        ∈ (allocation_tracing_report demo_host (run init demo_two_sessions)).1.host_calls := by
  refine ⟨rfl, rfl, by decide⟩

/-! ## Agreement of the tag index and the record sequence -/

/-- C14: in every state reached from the initial one by commands, sampled
allocations and free events (the counter staying in range), the keys of the
tag index are exactly the tags of the records of the sequence, every key maps
to the position of the record carrying that tag, and the lookup of a free
event finds a record exactly when the sequence holds a record with that
tag. -/
theorem index_agrees_with_sequence (inputs : List Input)
    (hrange : counter_in_range init inputs) :
    (∀ t : Int, (∃ p, map_at (run init inputs).allocs_by_tag t = some p)
        ↔ (∃ r ∈ (run init inputs).allocs, r.tag = t))
    ∧ (∀ (t : Int) (p : Nat), map_at (run init inputs).allocs_by_tag t = some p →
        ∃ r, (run init inputs).allocs[p]? = some r ∧ r.tag = t)
    ∧ (∀ (p : Nat) (r : alloc_rec), (run init inputs).allocs[p]? = some r →
        map_at (run init inputs).allocs_by_tag r.tag = some p)
    ∧ (∀ t : Int,
        (∃ p r, map_at (run init inputs).allocs_by_tag t = some p
            ∧ (run init inputs).allocs[p]? = some r)
        ↔ (∃ r ∈ (run init inputs).allocs, r.tag = t)) := by
  obtain ⟨_, _, _, hsound, hcompl⟩ := well_formed_run init inputs well_formed_init hrange
  refine ⟨fun t => ⟨?_, ?_⟩, hsound, hcompl, fun t => ⟨?_, ?_⟩⟩
  · rintro ⟨p, hp⟩
    obtain ⟨r, hr, ht⟩ := hsound t p hp
    exact ⟨r, List.getElem?_mem hr, ht⟩
  · rintro ⟨r, hr, ht⟩
    obtain ⟨p, hp⟩ := List.mem_iff_getElem?.1 hr
    exact ⟨p, ht ▸ hcompl p r hp⟩
  · rintro ⟨p, r, hp, _⟩
    obtain ⟨r2, hr2, ht⟩ := hsound t p hp
    exact ⟨r2, List.getElem?_mem hr2, ht⟩
  · rintro ⟨r, hr, ht⟩
    obtain ⟨p, hp⟩ := List.mem_iff_getElem?.1 hr
    exact ⟨p, r, ht ▸ hcompl p r hp, hp⟩

/-- C14, an instance: after the run with a report in the middle the index
finds the record with tag 2 and has no entry for the drained tag 0. -/
theorem index_agrees_with_sequence_witness :
    counter_in_range init demo_two_sessions
    ∧ (∃ p, map_at (run init demo_two_sessions).allocs_by_tag 2 = some p)
    ∧ ¬ (∃ r ∈ (run init demo_two_sessions).allocs, r.tag = 0) :=
  ⟨⟨by decide, by decide, by decide, by decide, by decide, by decide,
      by unfold counter_in_range; decide⟩,
    ((index_agrees_with_sequence demo_two_sessions
      ⟨by decide, by decide, by decide, by decide, by decide, by decide,
        by unfold counter_in_range; decide⟩).1 2).2 (by decide),
    fun hex =>
      absurd (((index_agrees_with_sequence demo_two_sessions
        ⟨by decide, by decide, by decide, by decide, by decide, by decide,
          by unfold counter_in_range; decide⟩).1 0).2 hex)
        (by
          rintro ⟨p, hp⟩
          have h0 : map_at (run init demo_two_sessions).allocs_by_tag 0 = none := rfl
          rw [h0] at hp
          exact Option.noConfusion hp)⟩

/-! ## The first tag -/

/-- C15, the code evaluated: from the freshly loaded agent, after the start
command and the start marker, the first sampled allocation is recorded with
tag 0, and 0 is the tag set on its object. -/
theorem first_record_has_tag_zero :
    init.next_object_tag = 0
    ∧ (run init [demo_start, demo_alloc_start_marker, demo_alloc_foo]).allocs
        = [demo_foo_record]
    ∧ demo_foo_record.tag = 0
    ∧ (run init [demo_start, demo_alloc_start_marker, demo_alloc_foo]).host_calls
        = [HostCall.SetTag 102 0] := by
  refine ⟨rfl, rfl, rfl, rfl⟩

/-! ## Host calls under the store lock -/

theorem calls_under_sample_lock_append (held : Bool) (a b : List Action) :
    calls_under_sample_lock held (a ++ b)
      = calls_under_sample_lock held a
        ++ calls_under_sample_lock (sample_lock_held_after held a) b := by
  induction a generalizing held with
  | nil => rfl
  | cons x rest ih =>
    cases x with
    | RawMonitorEnter id =>
      cases id
      · exact ih true
      · exact ih held
    | RawMonitorExit id =>
      cases id
      · exact ih false
      · exact ih held
    | call name =>
      cases held
      · exact ih false
      · show name :: calls_under_sample_lock true (rest ++ b) = _
        rw [ih true]
        rfl

theorem sample_lock_held_after_append (held : Bool) (a b : List Action) :
    sample_lock_held_after held (a ++ b)
      = sample_lock_held_after (sample_lock_held_after held a) b := by
  induction a generalizing held with
  | nil => rfl
  | cons x rest ih =>
    cases x with
    | RawMonitorEnter id =>
      cases id
      · exact ih true
      · exact ih held
    | RawMonitorExit id =>
      cases id
      · exact ih false
      · exact ih held
    | call name => exact ih held

theorem calls_under_sample_lock_calls (held : Bool) (names : List String) :
    calls_under_sample_lock held (names.map Action.call) = if held then names else [] := by
  induction names with
  | nil => cases held <;> rfl
  | cons n ns ih =>
    cases held
    · exact ih
    · show n :: calls_under_sample_lock true (ns.map Action.call) = n :: ns
      rw [ih]
      rfl

theorem sample_lock_held_after_calls (held : Bool) (names : List String) :
    sample_lock_held_after held (names.map Action.call) = held := by
  induction names with
  | nil => rfl
  | cons n ns ih => exact ih

theorem calls_of_append (a b : List Action) : calls_of (a ++ b) = calls_of a ++ calls_of b := by
  induction a with
  | nil => rfl
  | cons x rest ih =>
    cases x with
    | RawMonitorEnter id => exact ih
    | RawMonitorExit id => exact ih
    | call name =>
      show name :: calls_of (rest ++ b) = name :: calls_of rest ++ calls_of b
      rw [ih]
      rfl

theorem calls_of_calls (names : List String) : calls_of (names.map Action.call) = names := by
  induction names with
  | nil => rfl
  | cons n ns ih =>
    show n :: calls_of (ns.map Action.call) = n :: ns
    rw [ih]

/-- Building a record makes no call under `sample_lock`, and leaves the lock
as it found it. -/
theorem allocation_record_actions_unlocked (h : Host) (frames : List jvmtiFrameInfo) :
    calls_under_sample_lock false (allocation_record_actions h frames) = []
    ∧ sample_lock_held_after false (allocation_record_actions h frames) = false := by
  have h1 : calls_under_sample_lock false [Action.call "CallLongMethod"] = [] := rfl
  have h2 : sample_lock_held_after false [Action.call "CallLongMethod"] = false := rfl
  have h3 : calls_under_sample_lock false next_tag_actions = [] := rfl
  have h4 : sample_lock_held_after false next_tag_actions = false := rfl
  unfold allocation_record_actions
  constructor
  · simp only [calls_under_sample_lock_append, sample_lock_held_after_append,
      calls_under_sample_lock_calls, sample_lock_held_after_calls, h1, h2, h3, h4,
      Bool.false_eq_true, if_false, List.append_nil]
  · simp only [sample_lock_held_after_append, sample_lock_held_after_calls, h2, h4]

/-- C13, the claim refuted: the free event of the stop marker calls
`SetEventNotificationMode` while `sample_lock` is held, and a report of one
record makes all its calls (the strings, the object, its delivery, the
releases, the query of `untag_objects`) while `sample_lock` is held. -/
theorem host_calls_while_locked :
    calls_under_sample_lock false (ObjectFree_actions 1 (run init demo_session))
      = ["SetEventNotificationMode"]
    ∧ calls_under_sample_lock false
        (allocation_tracing_report_actions demo_host
          (run init [demo_start, demo_alloc_start_marker, demo_alloc_foo]))
      = ["NewStringUTF", "NewStringUTF", "NewStringUTF", "NewStringUTF", "NewStringUTF",
          "NewStringUTF", "NewStringUTF", "NewObject", "CallStaticVoidMethod",
          "DeleteLocalRef", "DeleteLocalRef", "DeleteLocalRef", "DeleteLocalRef",
          "DeleteLocalRef", "DeleteLocalRef", "DeleteLocalRef", "DeleteLocalRef",
          "GetObjectsWithTags", "Deallocate", "Deallocate"] := by
  refine ⟨by decide, by decide⟩

/-- C13, amended: `SampledObjectAlloc` and `enable_allocation_tracing` make no
host call while `sample_lock` is held; `ObjectFree` holds it for its whole
body and makes one call under it, `SetEventNotificationMode`, exactly when it
performs the transition to `flushed`; `allocation_tracing_report` holds it for
its whole body, so every call it makes is made under it. -/
theorem host_calls_under_sample_lock :
    (∀ (h : Host) (thread : jthread) (object_klass : jclass) (s : State),
        calls_under_sample_lock false (SampledObjectAlloc_actions h thread object_klass s) = [])
    ∧ calls_under_sample_lock false enable_allocation_tracing_actions = []
    ∧ (∀ (tag : Int) (s : State),
        (∃ p r, map_at s.allocs_by_tag tag = some p ∧ s.allocs[p]? = some r
          ∧ r.disable_marker = true ∧ s.agent_state = allocation_tracing_flushing) →
        calls_under_sample_lock false (ObjectFree_actions tag s)
          = ["SetEventNotificationMode"])
    ∧ (∀ (tag : Int) (s : State),
        ¬ (∃ p r, map_at s.allocs_by_tag tag = some p ∧ s.allocs[p]? = some r
          ∧ r.disable_marker = true ∧ s.agent_state = allocation_tracing_flushing) →
        calls_under_sample_lock false (ObjectFree_actions tag s) = [])
    ∧ (∀ (h : Host) (s : State),
        calls_under_sample_lock false (allocation_tracing_report_actions h s)
          = calls_of (allocation_tracing_report_actions h s)) := by
  refine ⟨?_, by decide, ?_, ?_, ?_⟩
  · intro h thread object_klass s
    have e1 : calls_under_sample_lock false [Action.call "GetClassSignature"] = [] := rfl
    have e2 : sample_lock_held_after false [Action.call "GetClassSignature"] = false := rfl
    have e3 : calls_under_sample_lock false is_allocs_empty_actions = [] := rfl
    have e4 : sample_lock_held_after false is_allocs_empty_actions = false := rfl
    have e5 : calls_under_sample_lock false [Action.call "Deallocate"] = [] := rfl
    have e6 : calls_under_sample_lock false [Action.call "GetStackTrace"] = [] := rfl
    have e7 : sample_lock_held_after false [Action.call "GetStackTrace"] = false := rfl
    have e8 : calls_under_sample_lock false [Action.call "SetTag"] = [] := rfl
    have e9 : sample_lock_held_after false [Action.call "SetTag"] = false := rfl
    have e10 : calls_under_sample_lock false
        [Action.RawMonitorEnter Lock.sample_lock, Action.RawMonitorExit Lock.sample_lock]
        = [] := rfl
    have e11 : sample_lock_held_after false
        [Action.RawMonitorEnter Lock.sample_lock, Action.RawMonitorExit Lock.sample_lock]
        = false := rfl
    have e12 : calls_under_sample_lock false
        ([Action.call "SetEventNotificationMode"] ++ set_state_env_calls.map Action.call)
        = [] := rfl
    have e13 : sample_lock_held_after false
        ([Action.call "SetEventNotificationMode"] ++ set_state_env_calls.map Action.call)
        = false := rfl
    unfold SampledObjectAlloc_actions
    cases h.GetClassSignature object_klass with
    | none => rfl
    | some class_sig =>
      dsimp only
      by_cases hpath : is_allocs_empty s = true ∧ s.agent_state = allocation_tracing_starting
      · by_cases hm : strcmp class_sig.data allocation_start_marker.data = 0
        · simp only [hpath, and_self, hm, if_true]
          rfl
        · simp only [hpath, and_self, hm, if_true, if_false]
          rfl
      · rw [if_neg hpath]
        cases h.GetStackTrace thread with
        | none => rfl
        | some stack =>
          have ha := allocation_record_actions_unlocked h (stack.take MAX_FRAMES)
          have e14 : calls_under_sample_lock false ([] : List Action) = [] := rfl
          have e15 : sample_lock_held_after false ([] : List Action) = false := rfl
          dsimp only
          by_cases hnames : names_resolve h (stack.take MAX_FRAMES) = true
          · rw [if_pos hnames]
            by_cases hc : s.agent_state = allocation_tracing_stopping
                ∧ strcmp class_sig.data allocation_finish_marker.data = 0
            · rw [if_pos hc]
              simp only [calls_under_sample_lock_append, sample_lock_held_after_append, ha.1,
                ha.2, e1, e2, e3, e4, e5, e6, e7, e8, e9, e10, e11, e12, e13, List.append_nil]
            · rw [if_neg hc]
              simp only [calls_under_sample_lock_append, sample_lock_held_after_append, ha.1,
                ha.2, e1, e2, e3, e4, e5, e6, e7, e8, e9, e10, e11, e14, e15, List.append_nil]
          · rw [if_neg hnames]
            simp only [calls_under_sample_lock_append, sample_lock_held_after_append, ha.1,
              ha.2, e1, e2, e3, e4, e5, e6, e7, e14, e15, List.append_nil]
  · rintro tag s ⟨p, r, hm, hr, hd, hst⟩
    simp only [ObjectFree_actions, hm, hr, hd, hst, and_self, if_true]
    rfl
  · intro tag s hn
    cases hm : map_at s.allocs_by_tag tag with
    | none =>
      simp only [ObjectFree_actions, hm]
      rfl
    | some p =>
      cases hr : s.allocs[p]? with
      | none =>
        simp only [ObjectFree_actions, hm, hr]
        rfl
      | some r =>
        have hc : ¬ (s.agent_state = allocation_tracing_flushing ∧ r.disable_marker = true) :=
          fun hc => hn ⟨p, r, hm, hr, hc.2, hc.1⟩
        simp only [ObjectFree_actions, hm, hr, hc, if_false]
        rfl
  · intro h s
    have f1 : calls_under_sample_lock false [Action.RawMonitorEnter Lock.sample_lock] = [] := rfl
    have f2 : sample_lock_held_after false [Action.RawMonitorEnter Lock.sample_lock] = true := rfl
    have f3 : calls_under_sample_lock true [Action.RawMonitorExit Lock.sample_lock] = [] := rfl
    have f4 : calls_of [Action.RawMonitorEnter Lock.sample_lock] = [] := rfl
    have f5 : calls_of [Action.RawMonitorExit Lock.sample_lock] = [] := rfl
    simp only [allocation_tracing_report_actions, calls_under_sample_lock_append,
      sample_lock_held_after_append, calls_under_sample_lock_calls,
      sample_lock_held_after_calls, calls_of_append, calls_of_calls, f1, f2, f3, f4, f5,
      if_true, List.nil_append, List.append_nil]

/-- C13 amended, an instance: the free event of the stop marker of the
example session makes its one call under the lock. -/
theorem host_calls_under_sample_lock_witness :
    (∃ p r, map_at (run init demo_session).allocs_by_tag 1 = some p
        ∧ (run init demo_session).allocs[p]? = some r
        ∧ r.disable_marker = true
        ∧ (run init demo_session).agent_state = allocation_tracing_flushing)
    ∧ calls_under_sample_lock false (ObjectFree_actions 1 (run init demo_session))
        = ["SetEventNotificationMode"] :=
  ⟨⟨1, _, rfl, rfl, rfl, rfl⟩,
    host_calls_under_sample_lock.2.2.1 1 (run init demo_session) ⟨1, _, rfl, rfl, rfl, rfl⟩⟩

end Criterium
